import Mathlib

/-!
Shallow embedding of the ipaddress_calculator program
(src/ipaddress_calculator/ipfx.py).

The program delegates all address arithmetic to the CPython 3.11 standard
library module `ipaddress`; the parts of that module which the program
actually calls (parsing, netmask handling, network construction with
strict=False, classification tables, string forms, reverse pointers) are
embedded here as well, translated from Lib/ipaddress.py of CPython 3.11.

Machine integers are modelled as Nat (Python ints are unbounded; every
address value is kept below 2^32 resp. 2^128 by construction, as in the
source).  Fallible code returns Option.  Python strings are modelled as
Lean String, manipulated through their character lists.
-/

namespace Ipfx

/-! ### Python string primitives -/

/-- Python str.split(sep) for a one-character separator, on char lists.
Mirrors CPython semantics: the result always has (count of sep) + 1
pieces, so an empty input gives [[]]. -/
def splitCh (c : Char) : List Char → List (List Char)
  | [] => [[]]
  | x :: xs =>
    match splitCh c xs with
    | [] => []
    | r :: rs => if x = c then [] :: r :: rs else (x :: r) :: rs

/-- Python sep.join for a one-character separator, on char lists. -/
def joinCh (c : Char) : List (List Char) → List Char
  | [] => []
  | [l] => l
  | l :: ls => l ++ c :: joinCh c ls

/-- Python str.split(sep) at String level. -/
def pySplit (c : Char) (s : String) : List String :=
  (splitCh c s.data).map String.mk

/-- Whitespace characters stripped by Python str.strip() (ASCII range;
the program only ever strips console input). -/
def pySpace (c : Char) : Bool :=
  c = ' ' || c = '\t' || c = '\n' || c = '\x0d' || c = '\x0b' || c = '\x0c'

/-- Python str.strip() with no argument. -/
def pyStrip (s : String) : String :=
  String.mk (((s.data.dropWhile pySpace).reverse.dropWhile pySpace).reverse)

/-- Python str.lower() restricted to ASCII letters; the program only
compares the lowered string against the ASCII words exit/quit/q. -/
def pyLower (s : String) : String :=
  String.mk (s.data.map fun c =>
    if 'A' ≤ c && c ≤ 'Z' then Char.ofNat (c.toNat + 32) else c)

/-- Python str.center(width) with the space fill character, following
CPython: left margin = marg/2 + (marg AND width AND 1). -/
def pyCenter (w : Nat) (s : String) : String :=
  if w ≤ s.length then s
  else
    let marg := w - s.length
    let left := marg / 2 + (marg &&& w &&& 1)
    String.mk (List.replicate left ' ') ++ s ++
      String.mk (List.replicate (marg - left) ' ')

/-- Python format spec of minimum width w for a str value
(left justified, space padded), as in f-string formatting. -/
def pyLJust (w : Nat) (s : String) : String :=
  if w ≤ s.length then s
  else s ++ String.mk (List.replicate (w - s.length) ' ')

/-- Python str(b) for a bool. -/
def pyBoolStr (b : Bool) : String := if b then "True" else "False"

/-- Values stored in the info dictionaries of the program (str, int or
bool), together with their Python str() rendering. -/
inductive PyVal where
  | s (v : String)
  | i (v : Int)
  | b (v : Bool)
deriving DecidableEq

/-- Python str() used when printing a dict value. -/
def PyVal.str : PyVal → String
  | .s v => v
  | .i v => toString v
  | .b v => pyBoolStr v

/-! ### IPv4 address parsing and formatting (ipaddress._BaseV4) -/

/-- Test for an ASCII decimal digit, as checked by
octet_str.isascii() and octet_str.isdigit() combined. -/
def isAsciiDigit (c : Char) : Bool := '0' ≤ c && c ≤ '9'

/-- Decimal value of a digit list (int(s, 10) once all chars are known
to be ASCII digits). -/
def decValue (l : List Char) : Nat :=
  l.foldl (fun a c => 10 * a + (c.toNat - 48)) 0

/-- ipaddress._BaseV4._parse_octet: a decimal octet, at most 3 ASCII
digits, no leading zero except for "0" itself, value at most 255. -/
def parseOctet (l : List Char) : Option Nat :=
  if l = [] then none
  else if ¬ l.all isAsciiDigit then none
  else if 3 < l.length then none
  else if l ≠ ['0'] && l.head? = some '0' then none
  else
    let v := decValue l
    if 255 < v then none else some v

/-- ipaddress._BaseV4._ip_int_from_string: four dot separated octets,
assembled big endian. -/
def parseIPv4 (s : String) : Option Nat :=
  if s.data = [] then none
  else
    let octets := splitCh '.' s.data
    if octets.length ≠ 4 then none
    else
      match octets.mapM parseOctet with
      | some [a, b, c, d] => some (((a * 256 + b) * 256 + c) * 256 + d)
      | _ => none

/-- ipaddress.IPv4Address constructed from a string: rejects a slash,
then parses the dotted quad. -/
def parseIPv4Addr (s : String) : Option Nat :=
  if s.data.contains '/' then none else parseIPv4 s

/-- ipaddress._BaseV4._string_from_ip_int: dot joined str() of the four
big endian bytes of the value. -/
def ipv4Str (n : Nat) : String :=
  String.mk (joinCh '.'
    ([(n >>> 24) &&& 255, (n >>> 16) &&& 255, (n >>> 8) &&& 255, n &&& 255].map
      (fun v => (Nat.repr v).data)))

/-! ### Netmask handling (ipaddress._IPAddressBase and _BaseV4) -/

/-- ipaddress._IPAddressBase._ip_int_from_prefix for a given bit width:
ALL_ONES XOR (ALL_ONES >> prefixlen). -/
def maskOfLen (width p : Nat) : Nat :=
  (2 ^ width - 1) ^^^ ((2 ^ width - 1) >>> p)

/-- The IPv4 netmask of a prefix length. -/
def v4mask (p : Nat) : Nat := maskOfLen 32 p

/-- The IPv6 netmask of a prefix length. -/
def v6mask (p : Nat) : Nat := maskOfLen 128 p

/-- Python int.bit_length(). -/
def pyBitLength (n : Nat) : Nat :=
  if n = 0 then 0 else (Nat.toDigits 2 n).length

/-- ipaddress._count_righthand_zero_bits.  For n > 0 the Python
expression (~n AND (n-1)) equals (n-1) - (n AND (n-1)). -/
def countRighthandZeroBits (n bits : Nat) : Nat :=
  if n = 0 then bits
  else min bits (pyBitLength ((n - 1) - (n &&& (n - 1))))

/-- ipaddress._IPAddressBase._prefix_from_ip_int: recover a prefix
length from an all-ones-then-all-zeroes mask value. -/
def pfxFromIpInt (maxLen ipInt : Nat) : Option Nat :=
  let tz := countRighthandZeroBits ipInt maxLen
  let pl := maxLen - tz
  let leadingOnes := ipInt >>> tz
  let allOnes := (1 <<< pl) - 1
  if leadingOnes ≠ allOnes then none else some pl

/-- ipaddress._IPAddressBase._prefix_from_prefix_string: the string must
be nonempty ASCII digits (so no sign and no spaces) and its value at
most the maximum prefix length. -/
def pfxFromPfxString (maxLen : Nat) (s : String) : Option Nat :=
  if s.data ≠ [] && s.data.all isAsciiDigit then
    let pl := decValue s.data
    if pl ≤ maxLen then some pl else none
  else none

/-- ipaddress._IPAddressBase._prefix_from_ip_string (IPv4 use): parse as
a dotted quad and accept it as a netmask, else as a hostmask. -/
def pfxFromIpString4 (s : String) : Option Nat :=
  match parseIPv4 s with
  | none => none
  | some ip =>
    match pfxFromIpInt 32 ip with
    | some pl => some pl
    | none => pfxFromIpInt 32 (ip ^^^ (2 ^ 32 - 1))

/-- ipaddress._BaseV4._make_netmask on a string argument (only the
prefix length component is kept by the program). -/
def makeNetmask4 (s : String) : Option Nat :=
  match pfxFromPfxString 32 s with
  | some pl => some pl
  | none => pfxFromIpString4 s

/-- ipaddress._BaseV6._make_netmask on a string argument: IPv6 accepts
only the decimal prefix length form. -/
def makeNetmask6 (s : String) : Option Nat := pfxFromPfxString 128 s

/-! ### IPv4 networks, interfaces and classification -/

/-- The data of an ipaddress.IPv4Network that the program reads: the
(already host-bit-zeroed) network address and the prefix length. -/
structure V4Net where
  netAddr : Nat
  pfxLen : Nat
deriving DecidableEq

/-- The data of an ipaddress.IPv4Interface that the program reads: the
unmasked address and the prefix length. -/
structure V4Itf where
  ip : Nat
  pfxLen : Nat
deriving DecidableEq

/-- ipaddress.IPv4Network(s, strict=False) from an address string and a
mask string: the stored network address is the address AND the netmask
(IPv4Network.__init__ with the strict branch disabled). -/
def mkV4Net (addrS maskS : String) : Option V4Net :=
  match parseIPv4Addr addrS, makeNetmask4 maskS with
  | some a, some pl => some ⟨a &&& v4mask pl, pl⟩
  | _, _ => none

/-- ipaddress._IPAddressBase._split_addr_prefix on a string followed by
IPv4Network(..., strict=False): at most one slash; a missing mask means
the maximum prefix length. -/
def mkV4NetStr (s : String) : Option V4Net :=
  match pySplit '/' s with
  | [a] => (parseIPv4Addr a).map (fun v => ⟨v &&& v4mask 32, 32⟩)
  | [a, m] => mkV4Net a m
  | _ => none

/-- ipaddress.IPv4Interface(s): same parse, but the address keeps its
host bits. -/
def mkV4ItfStr (s : String) : Option V4Itf :=
  match pySplit '/' s with
  | [a] => (parseIPv4Addr a).map (fun v => ⟨v, 32⟩)
  | [a, m] =>
    match parseIPv4Addr a, makeNetmask4 m with
    | some v, some pl => some ⟨v, pl⟩
    | _, _ => none
  | _ => none

/-- The broadcast address of a network: network address OR hostmask,
where hostmask = netmask XOR ALL_ONES (_BaseNetwork.broadcast_address
and _BaseNetwork.hostmask). -/
def v4bcast (net : V4Net) : Nat :=
  net.netAddr ||| (v4mask net.pfxLen ^^^ (2 ^ 32 - 1))

/-- Membership of an address value in a network given by network address
and prefix length (_BaseNetwork.__contains__). -/
def inNet4 (rangeAddr rangePfx a : Nat) : Bool :=
  a &&& v4mask rangePfx == rangeAddr

/-- The IPv4 private range table of CPython 3.11
(ipaddress._IPv4Constants._private_networks), as
(network address, prefix length) pairs:
0.0.0.0/8, 10.0.0.0/8, 127.0.0.0/8, 169.254.0.0/16, 172.16.0.0/12,
192.0.0.0/29, 192.0.0.170/31, 192.0.2.0/24, 192.168.0.0/16,
198.18.0.0/15, 198.51.100.0/24, 203.0.113.0/24, 240.0.0.0/4,
255.255.255.255/32. -/
def privateNets4 : List (Nat × Nat) :=
  [(0x00000000, 8), (0x0A000000, 8), (0x7F000000, 8), (0xA9FE0000, 16),
   (0xAC100000, 12), (0xC0000000, 29), (0xC00000AA, 31), (0xC0000200, 24),
   (0xC0A80000, 16), (0xC6120000, 15), (0xC6336400, 24), (0xCB007100, 24),
   (0xF0000000, 4), (0xFFFFFFFF, 32)]

/-- ipaddress._BaseNetwork.is_private: some private range contains both
the network address and the broadcast address. -/
def isPrivate4 (na ba : Nat) : Bool :=
  privateNets4.any (fun r => inNet4 r.1 r.2 na && inNet4 r.1 r.2 ba)

/-- ipaddress.IPv4Network.is_global: the network does not sit inside
100.64.0.0/10 and is not private. -/
def isGlobal4 (na ba : Nat) : Bool :=
  !(inNet4 0x64400000 10 na && inNet4 0x64400000 10 ba) && !isPrivate4 na ba

/-! ### IPv4 reverse pointer and notational fields -/

/-- ipaddress.IPv4Interface.__str__: dotted quad, slash, prefix length. -/
def v4ItfStr (itf : V4Itf) : String :=
  ipv4Str itf.ip ++ "/" ++ Nat.repr itf.pfxLen

/-- ipaddress._BaseV4._reverse_pointer: split str(self) on dots, reverse
the pieces, join with dots, append the arpa suffix.  For an
IPv4Interface, str(self) is the address/prefix form. -/
def revPtr4OfStr (s : String) : String :=
  String.mk (joinCh '.' (splitCh '.' s.data).reverse) ++ ".in-addr.arpa"

/-- IPCalculator.calculate_ipv4: the ordered field dictionary.  Python
dicts preserve insertion order, so the dictionary is modelled as an
ordered association list. -/
def calculateIPv4 (net : V4Net) (itf : V4Itf) : List (String × PyVal) :=
  let ipAddr := itf.ip
  let na := net.netAddr
  let ba := v4bcast net
  let hostCount : Int := ((ba : Int) - (na : Int) + 1) - 2
  [("ipaddress", .s (ipv4Str ipAddr)),
   ("network_address", .s (ipv4Str na)),
   ("broadcast_address", .s (ipv4Str ba)),
   ("host_count", .i hostCount),
   ("is_private", .b (isPrivate4 na ba)),
   ("is_global", .b (isGlobal4 na ba)),
   ("is_network_address", .b (na == ipAddr)),
   ("is_broadcast_address", .b (ba == ipAddr)),
   ("reverse", .s (revPtr4OfStr (v4ItfStr itf))),
   ("cidr_notation", .s (ipv4Str ipAddr ++ "/" ++ Nat.repr net.pfxLen)),
   ("cisco_notation", .s (ipv4Str ipAddr ++ " " ++ ipv4Str (v4mask net.pfxLen))),
   ("ubuntu_subnet", .s (ipv4Str na ++ "/" ++ Nat.repr net.pfxLen))]

/-! ### IPv6 parsing (ipaddress._BaseV6._ip_int_from_string) -/

/-- Test for a character of ipaddress._BaseV6._HEX_DIGITS. -/
def isHexDigitCh (c : Char) : Bool :=
  ('0' ≤ c && c ≤ '9') || ('a' ≤ c && c ≤ 'f') || ('A' ≤ c && c ≤ 'F')

/-- Numeric value of a hex digit character. -/
def hexDigitVal (c : Char) : Nat :=
  if '0' ≤ c && c ≤ '9' then c.toNat - 48
  else if 'a' ≤ c && c ≤ 'f' then c.toNat - 87
  else c.toNat - 55

/-- Value of a hex digit list (int(s, 16)). -/
def hexValue (l : List Char) : Nat :=
  l.foldl (fun a c => 16 * a + hexDigitVal c) 0

/-- ipaddress._BaseV6._parse_hextet: only hex digits, at most 4 of
them; the empty piece fails at the int conversion. -/
def parseHextet (l : List Char) : Option Nat :=
  if ¬ l.all isHexDigitCh then none
  else if 4 < l.length then none
  else if l = [] then none
  else some (hexValue l)

/-- Python hex formatting without padding: the digit list behind
a percent-x format of a Nat (lowercase). -/
def hexChars (v : Nat) : List Char := Nat.toDigits 16 v

/-- Big endian 16-bit-group assembly used by _ip_int_from_string:
ip_int = (ip_int << 16) OR hextet, folded left. -/
def foldHextets (init : Nat) (vs : List Nat) : Nat :=
  vs.foldl (fun a v => (a <<< 16) ||| v) init

/-- ipaddress._BaseV6._ip_int_from_string: colon separated hextets with
at most one double colon compression and an optional trailing
IPv4-style suffix.  Mirrors the CPython 3.11 control flow. -/
def parseIPv6 (s : String) : Option Nat :=
  if s.data = [] then none
  else
    let parts0 := splitCh ':' s.data
    if parts0.length < 3 then none
    else
      let withTail : Option (List (List Char)) :=
        match parts0.getLast? with
        | none => none
        | some lastP =>
          if lastP.contains '.' then
            match parseIPv4Addr (String.mk lastP) with
            | some v4 =>
              some (parts0.dropLast ++
                [hexChars ((v4 >>> 16) &&& 0xFFFF), hexChars (v4 &&& 0xFFFF)])
            | none => none
          else some parts0
      match withTail with
      | none => none
      | some parts =>
        if 9 < parts.length then none
        else
          let internalEmpties := (List.range parts.length).filter
            (fun i => decide (1 ≤ i) && decide (i + 1 < parts.length) &&
              decide (parts.getD i [' '] = []))
          if 1 < internalEmpties.length then none
          else
            match internalEmpties with
            | skipIdx :: _ =>
              let hiOpt : Option Nat :=
                if parts.getD 0 [' '] = [] then
                  if skipIdx - 1 ≠ 0 then none else some 0
                else some skipIdx
              let lo0 := parts.length - skipIdx - 1
              let loOpt : Option Nat :=
                if parts.getLast? = some [] then
                  if lo0 - 1 ≠ 0 then none else some 0
                else some lo0
              match hiOpt, loOpt with
              | some hi, some lo =>
                if 8 ≤ hi + lo then none
                else
                  let skipped := 8 - (hi + lo)
                  match (parts.take hi).mapM parseHextet,
                        (parts.drop (parts.length - lo)).mapM parseHextet with
                  | some hiVals, some loVals =>
                    some (foldHextets (foldHextets 0 hiVals <<< (16 * skipped)) loVals)
                  | _, _ => none
              | _, _ => none
            | [] =>
              if parts.length ≠ 8 then none
              else if parts.getD 0 [' '] = [] then none
              else if parts.getLast? = some [] then none
              else
                match parts.mapM parseHextet with
                | some vals => some (foldHextets 0 vals)
                | none => none

/-- ipaddress._BaseV6._split_scope_id: partition on the first percent
sign; the scope id must be nonempty and percent free. -/
def splitScopeId (s : String) : Option (String × Option String) :=
  match splitCh '%' s.data with
  | [a] => some (String.mk a, none)
  | [a, sc] => if sc = [] then none else some (String.mk a, some (String.mk sc))
  | _ => none

/-- ipaddress.IPv6Address constructed from a string: rejects a slash,
splits off the scope id, parses the rest. -/
def parseIPv6AddrScoped (s : String) : Option (Nat × Option String) :=
  if s.data.contains '/' then none
  else
    match splitScopeId s with
    | none => none
    | some (a, sc) => (parseIPv6 a).map (fun v => (v, sc))

/-! ### IPv6 string form (ipaddress._BaseV6._string_from_ip_int) -/

/-- The eight hextet strings of a 128-bit value, each rendered by
percent-x on the int value of its 4-hex-digit slice of percent-032x. -/
def v6Hextets (n : Nat) : List (List Char) :=
  (List.range 8).map (fun i => hexChars ((n >>> (16 * (7 - i))) &&& 0xFFFF))

/-- State of the best-zero-run scan of _compress_hextets; CPython uses
-1 sentinels for the start positions. -/
structure RunSt where
  bestStart : Int
  bestLen : Nat
  curStart : Int
  curLen : Nat

/-- ipaddress._BaseV6._compress_hextets: replace the first longest run
of at least two "0" hextets by an empty piece, padding an end run with
an extra empty piece so that the colon join shows the double colon. -/
def compressHextets (hs : List (List Char)) : List (List Char) :=
  let st := hs.enum.foldl
    (fun (st : RunSt) p =>
      if p.2 = ['0'] then
        let cs := if st.curStart = -1 then (p.1 : Int) else st.curStart
        let cl := st.curLen + 1
        if st.bestLen < cl then ⟨cs, cl, cs, cl⟩
        else ⟨st.bestStart, st.bestLen, cs, cl⟩
      else ⟨st.bestStart, st.bestLen, -1, 0⟩)
    ⟨-1, 0, -1, 0⟩
  if 1 < st.bestLen then
    let bStart := st.bestStart.toNat
    let bEnd := bStart + st.bestLen
    let hs1 := if bEnd = hs.length then hs ++ [[]] else hs
    let hs2 := hs1.take bStart ++ [[]] ++ hs1.drop bEnd
    if bStart = 0 then [] :: hs2 else hs2
  else hs

/-- ipaddress._BaseV6._string_from_ip_int: compressed colon join. -/
def v6Str (n : Nat) : String :=
  String.mk (joinCh ':' (compressHextets (v6Hextets n)))

/-- ipaddress.IPv6Address.__str__: compressed form plus an optional
percent separated scope id. -/
def v6AddrStr (n : Nat) (scope : Option String) : String :=
  match scope with
  | some sc => v6Str n ++ "%" ++ sc
  | none => v6Str n

/-! ### IPv6 networks and classification -/

/-- The data of an ipaddress.IPv6Network that the program reads.  The
scope id survives only when the given address already has its host bits
zero (otherwise IPv6Network.__init__ rebuilds the address from an int,
which has no scope). -/
structure V6Net where
  netAddr : Nat
  scope : Option String
  pfxLen : Nat
deriving DecidableEq

/-- ipaddress.IPv6Network(addr/mask, strict=False). -/
def mkV6Net (addrS maskS : String) : Option V6Net :=
  match parseIPv6AddrScoped addrS, makeNetmask6 maskS with
  | some (a, sc), some pl =>
    if a &&& v6mask pl = a then some ⟨a, sc, pl⟩
    else some ⟨a &&& v6mask pl, none, pl⟩
  | _, _ => none

/-- _split_addr_prefix then IPv6Network(..., strict=False); a missing
mask means prefix length 128. -/
def mkV6NetStr (s : String) : Option V6Net :=
  match pySplit '/' s with
  | [a] => mkV6Net a "128"
  | [a, m] => mkV6Net a m
  | _ => none

/-- Broadcast address of an IPv6 network (network OR hostmask). -/
def v6bcast (net : V6Net) : Nat :=
  net.netAddr ||| (v6mask net.pfxLen ^^^ (2 ^ 128 - 1))

/-- Membership of an IPv6 address value in a range. -/
def inNet6 (rangeAddr rangePfx a : Nat) : Bool :=
  a &&& v6mask rangePfx == rangeAddr

/-- The IPv6 private range table of CPython 3.11
(ipaddress._IPv6Constants._private_networks): ::1/128, ::/128,
::ffff:0:0/96, 100::/64, 2001::/23, 2001:2::/48, 2001:db8::/32,
2001:10::/28, fc00::/7, fe80::/10. -/
def privateNets6 : List (Nat × Nat) :=
  [(1, 128), (0, 128), (0xFFFF <<< 32, 96), (0x0100 <<< 112, 64),
   (0x2001 <<< 112, 23), ((0x2001 <<< 112) ||| (0x0002 <<< 96), 48),
   ((0x2001 <<< 112) ||| (0x0DB8 <<< 96), 32),
   ((0x2001 <<< 112) ||| (0x0010 <<< 96), 28),
   (0xFC00 <<< 112, 7), (0xFE80 <<< 112, 10)]

/-- ipaddress._BaseNetwork.is_private for IPv6 networks. -/
def isPrivate6 (na ba : Nat) : Bool :=
  privateNets6.any (fun r => inNet6 r.1 r.2 na && inNet6 r.1 r.2 ba)

/-- ipaddress._BaseNetwork.is_global: plain negation of is_private for
IPv6 networks. -/
def isGlobal6 (na ba : Nat) : Bool := !isPrivate6 na ba

/-- ipaddress._BaseNetwork.is_link_local: both ends in fe80::/10. -/
def isLinkLocal6 (na ba : Nat) : Bool :=
  inNet6 (0xFE80 <<< 112) 10 na && inNet6 (0xFE80 <<< 112) 10 ba

/-- ipaddress._BaseNetwork.is_multicast: both ends in ff00::/8. -/
def isMulticast6 (na ba : Nat) : Bool :=
  inNet6 (0xFF00 <<< 112) 8 na && inNet6 (0xFF00 <<< 112) 8 ba

/-! ### IPv6 exploded form and reverse pointer -/

/-- A 4-hex-digit zero padded group, as sliced out of percent-032x. -/
def hex4 (v : Nat) : List Char :=
  let h := hexChars v
  List.replicate (4 - h.length) '0' ++ h

/-- ipaddress._BaseV6._explode_shorthand_ip_string for an IPv6Network:
reparse str(network_address) (this fails when a scope id is present),
format all eight groups zero padded, and append the slash and prefix
length. -/
def v6ExplodedNet (net : V6Net) : Option String :=
  match parseIPv6 (v6AddrStr net.netAddr net.scope) with
  | none => none
  | some ip =>
    some (String.mk (joinCh ':'
      ((List.range 8).map (fun i => hex4 ((ip >>> (16 * (7 - i))) &&& 0xFFFF))))
      ++ "/" ++ Nat.repr net.pfxLen)

/-- ipaddress._BaseV6._reverse_pointer on an IPv6Network: reverse the
characters of the exploded form, drop the colons, dot join the single
characters, append the arpa suffix. -/
def revPtr6 (net : V6Net) : Option String :=
  (v6ExplodedNet net).map (fun e =>
    String.mk (joinCh '.' ((e.data.reverse.filter (fun c => c ≠ ':')).map
      (fun c => [c]))) ++ ".ip6.arpa")

/-- IPCalculator.calculate_ipv6: the ordered field dictionary.  The
whole dictionary fails to materialise when the reverse pointer raises
(scoped network address); every other entry is pure. -/
def calculateIPv6 (net : V6Net) : Option (List (String × PyVal)) :=
  let na := net.netAddr
  let ba := v6bcast net
  match revPtr6 net with
  | none => none
  | some rv =>
    some [("network_address", .s (v6AddrStr na net.scope)),
          ("is_private", .b (isPrivate6 na ba)),
          ("is_global", .b (isGlobal6 na ba)),
          ("is_link_local", .b (isLinkLocal6 na ba)),
          ("is_multicast", .b (isMulticast6 na ba)),
          ("reverse", .s rv),
          ("cidr_notation", .s (v6AddrStr na net.scope ++ "/" ++ Nat.repr net.pfxLen)),
          ("ubuntu_notation", .s (v6AddrStr na net.scope ++ "/" ++ Nat.repr net.pfxLen))]

/-! ### Output formatting (OutputFormatter) -/

/-- The 42 equals signs banner printed around each result block. -/
def bannerLine : String := String.mk (List.replicate 42 '=')

/-- One field line: f-string of the key at width 20 (left justified),
colon, space, str() of the value. -/
def fmtFieldLine (kv : String × PyVal) : String :=
  pyLJust 20 kv.1 ++ ": " ++ kv.2.str

/-- OutputFormatter.print_ipv4_info / print_ipv6_info: banner, centered
title, a SECOND banner, one line per dictionary entry in insertion
order, closing banner. -/
def printInfoLines (title : String) (info : List (String × PyVal)) : List String :=
  bannerLine :: pyCenter 42 title :: bannerLine ::
    (info.map fmtFieldLine ++ [bannerLine])

/-! ### IPAddressProcessor and the run modes -/

/-- IPCalculator.get_address_version via ipaddress.ip_address: 4 when
the string parses as IPv4, else 6 when it parses as IPv6 (scope id
allowed), else -1. -/
def getAddressVersion (s : String) : Int :=
  if (parseIPv4Addr s).isSome then 4
  else if (parseIPv6AddrScoped s).isSome then 6
  else -1

/-- The error line of the caught ValueError branch.  The Python text
interpolates the exception message; only the fixed head is modelled. -/
def errNetSpec : String := "Error: Invalid network specification: ..."

/-- The error line for an input that does not split into exactly two
pieces at a slash. -/
def errFormat : String :=
  "Error: Invalid input format. Please use \x27address/prefix\x27."

/-- The error line for an address that is neither IPv4 nor IPv6. -/
def errAddress : String := "Error: Invalid address format."

/-- The error line of the unreachable final else branch. -/
def errUnknown : String := "Error: Unknown address version."

/-- IPAddressProcessor.process_address: returns the Python return value
(0 success, -1 error) together with the lines printed to stdout. -/
def processAddress (s : String) : Int × List String :=
  match pySplit '/' s with
  | [a, pfxS] =>
    let ver := getAddressVersion a
    if ver = -1 then (-1, [errAddress])
    else if ver = 4 then
      match mkV4NetStr (a ++ "/" ++ pfxS), mkV4ItfStr (a ++ "/" ++ pfxS) with
      | some net, some itf =>
        (0, printInfoLines "IPv4 Address Information" (calculateIPv4 net itf))
      | _, _ => (-1, [errNetSpec])
    else if ver = 6 then
      match mkV6NetStr (a ++ "/" ++ pfxS) with
      | some net =>
        match calculateIPv6 net with
        | some info => (0, printInfoLines "IPv6 Address Information" info)
        | none => (-1, [errNetSpec])
      | none => (-1, [errNetSpec])
    else (-1, [errUnknown])
  | _ => (-1, [errFormat])

/-- The first line of OutputFormatter.print_help; the remaining static
usage lines are not needed by any claim and are elided. -/
def helpOutput : List String :=
  ["IP Address Calculator (ipfx) - Network Analysis Tool"]

/-- The argument loop of the __main__ block for a nonempty argument
list: help flags print the usage text and stop with status 0; otherwise
each argument is announced, processed, and a nonzero return value of
process_address becomes the exit status at once (later arguments are
not handled); when the loop finishes the status is 0. -/
def runArgs : List String → Int × List String
  | [] => (0, [])
  | a :: rest =>
    if a = "-h" || a = "--help" then (0, helpOutput)
    else
      let r := processAddress a
      if r.1 ≠ 0 then (r.1, ("Processing: " ++ a) :: r.2)
      else
        let rr := runArgs rest
        (rr.1, (("Processing: " ++ a) :: r.2 ++ [""]) ++ rr.2)

/-- One console event of the interactive loop: a line, an interrupt
signal (KeyboardInterrupt), or the end of the input stream (EOFError).
A stream that simply runs out behaves like the end of input. -/
inductive InEvent where
  | line (s : String)
  | interrupt
  | endOfInput

/-- The exit test of the interactive loop: the lowered stripped line is
one of exit, quit, q. -/
def isExitCmd (t : String) : Bool :=
  pyLower t == "exit" || pyLower t == "quit" || pyLower t == "q"

/-- IPAddressProcessor.interactive_mode: strip the line; exit, quit and
q (case insensitive) leave the loop; blank lines are skipped; any other
line goes through process_address with its result ignored; interrupt
and end of input leave the loop.  The function always returns 0.  The
second component collects the stripped lines handed to
process_address. -/
def interactiveRun : List InEvent → Int × List String
  | [] => (0, [])
  | .interrupt :: _ => (0, [])
  | .endOfInput :: _ => (0, [])
  | .line s :: rest =>
    let t := pyStrip s
    if isExitCmd t then (0, [])
    else if t = "" then interactiveRun rest
    else
      let r := interactiveRun rest
      (r.1, t :: r.2)

/-! ### Properties of the split and join primitives -/

theorem splitCh_cons (c x : Char) (xs : List Char) :
    splitCh c (x :: xs) =
      match splitCh c xs with
      | [] => []
      | r :: rs => if x = c then [] :: r :: rs else (x :: r) :: rs := rfl

theorem splitCh_ne_nil (c : Char) (l : List Char) : splitCh c l ≠ [] := by
  induction l with
  | nil => simp [splitCh]
  | cons x xs ih =>
    rw [splitCh_cons]
    rcases h : splitCh c xs with _ | ⟨r, rs⟩
    · exact absurd h ih
    · by_cases hx : x = c <;> simp [hx]

theorem splitCh_not_mem (c : Char) (l : List Char) (h : c ∉ l) :
    splitCh c l = [l] := by
  induction l with
  | nil => rfl
  | cons x xs ih =>
    simp only [List.mem_cons, not_or] at h
    have hxc : ¬ x = c := fun hx => h.1 hx.symm
    rw [splitCh_cons, ih h.2]
    simp [hxc]

theorem splitCh_append (c : Char) (a b : List Char) (h : c ∉ a) :
    splitCh c (a ++ c :: b) = a :: splitCh c b := by
  induction a with
  | nil =>
    rcases hs : splitCh c b with _ | ⟨r, rs⟩
    · exact absurd hs (splitCh_ne_nil c b)
    · rw [List.nil_append, splitCh_cons, hs]
      simp
  | cons x xs ih =>
    simp only [List.mem_cons, not_or] at h
    have hxc : ¬ x = c := fun hx => h.1 hx.symm
    have ih2 := ih h.2
    rcases hs : splitCh c (xs ++ c :: b) with _ | ⟨r, rs⟩
    · exact absurd hs (splitCh_ne_nil c _)
    · rw [hs, List.cons.injEq] at ih2
      rw [List.cons_append, splitCh_cons, hs]
      simp [hxc, ih2.1, ih2.2]

theorem joinCh_cons (c : Char) (x : List Char) (ls : List (List Char))
    (h : ls ≠ []) : joinCh c (x :: ls) = x ++ c :: joinCh c ls := by
  cases ls with
  | nil => exact absurd rfl h
  | cons y ys => rfl

theorem splitCh_joinCh (c : Char) :
    ∀ ls : List (List Char), ls ≠ [] → (∀ x ∈ ls, c ∉ x) →
      splitCh c (joinCh c ls) = ls
  | [], h, _ => absurd rfl h
  | [x], _, hm => splitCh_not_mem c x (hm x (by simp))
  | x :: y :: ys, _, hm => by
    rw [joinCh_cons c x (y :: ys) (by simp)]
    rw [splitCh_append c x _ (hm x (by simp))]
    rw [splitCh_joinCh c (y :: ys) (by simp)
      (fun z hz => hm z (List.mem_cons_of_mem x hz))]

theorem joinCh_splitCh (c : Char) (l : List Char) :
    joinCh c (splitCh c l) = l := by
  induction l with
  | nil => rfl
  | cons x xs ih =>
    rw [splitCh_cons]
    rcases h : splitCh c xs with _ | ⟨r, rs⟩
    · exact absurd h (splitCh_ne_nil c xs)
    · rw [h] at ih
      show joinCh c (if x = c then [] :: r :: rs else (x :: r) :: rs) = x :: xs
      by_cases hx : x = c
      · subst hx
        rw [if_pos rfl, joinCh_cons _ [] (r :: rs) (by simp), List.nil_append, ih]
      · rw [if_neg hx]
        cases rs with
        | nil =>
          simp only [joinCh] at ih ⊢
          rw [ih]
        | cons r2 rs2 =>
          rw [joinCh_cons c (x :: r) (r2 :: rs2) (by simp)]
          rw [joinCh_cons c r (r2 :: rs2) (by simp)] at ih
          rw [List.cons_append, ih]

theorem mem_joinCh (c : Char) (ls : List (List Char)) (x : Char)
    (h : x ∈ joinCh c ls) : x = c ∨ ∃ p ∈ ls, x ∈ p := by
  induction ls with
  | nil => simp [joinCh] at h
  | cons y ys ih =>
    cases ys with
    | nil =>
      simp only [joinCh] at h
      exact Or.inr ⟨y, by simp, h⟩
    | cons z zs =>
      rw [joinCh_cons c y (z :: zs) (by simp)] at h
      rcases List.mem_append.1 h with hy | hrest
      · exact Or.inr ⟨y, by simp, hy⟩
      · rcases List.mem_cons.1 hrest with hc | hr
        · exact Or.inl hc
        · rcases ih hr with hc | ⟨p, hp, hxp⟩
          · exact Or.inl hc
          · exact Or.inr ⟨p, List.mem_cons_of_mem y hp, hxp⟩

theorem mem_of_mem_splitCh (c : Char) (l : List Char) (x : Char)
    (h : x ∈ l) : x = c ∨ ∃ p ∈ splitCh c l, x ∈ p := by
  refine mem_joinCh c (splitCh c l) x ?_
  rw [joinCh_splitCh]
  exact h

/-! ### Pieces of a split and membership -/

theorem splitCh_pieces_not_mem (c : Char) (l : List Char) :
    ∀ p ∈ splitCh c l, c ∉ p := by
  induction l with
  | nil =>
    intro p hp
    simp only [splitCh, List.mem_singleton] at hp
    simp [hp]
  | cons x xs ih =>
    intro p hp
    rw [splitCh_cons] at hp
    rcases h : splitCh c xs with _ | ⟨r, rs⟩
    · exact absurd h (splitCh_ne_nil c xs)
    · rw [h] at hp
      have hr : ∀ q ∈ r :: rs, c ∉ q := by
        intro q hq
        exact ih q (h ▸ hq)
      change p ∈ (if x = c then [] :: r :: rs else (x :: r) :: rs) at hp
      by_cases hx : x = c
      · rw [if_pos hx] at hp
        rcases List.mem_cons.1 hp with he | hm
        · simp [he]
        · exact hr p hm
      · rw [if_neg hx] at hp
        rcases List.mem_cons.1 hp with he | hm
        · subst he
          intro hc
          rcases List.mem_cons.1 hc with h1 | h2
          · exact hx h1.symm
          · exact hr r (by simp) h2
        · exact hr p (List.mem_cons_of_mem r hm)

theorem mapM_mem_some {α β : Type} (f : α → Option β) :
    ∀ (l : List α) (vs : List β), l.mapM f = some vs →
      ∀ x ∈ l, ∃ v, f x = some v := by
  intro l
  induction l with
  | nil => intro vs _ x hx; simp at hx
  | cons y ys ih =>
    intro vs h x hx
    rw [List.mapM_cons] at h
    rcases hf : f y with _ | v
    · rw [hf] at h; simp at h
    · rw [hf] at h
      simp only [Option.bind_eq_bind, Option.some_bind] at h
      rcases hm : ys.mapM f with _ | ws
      · rw [hm] at h; simp at h
      · rcases List.mem_cons.1 hx with he | hmem
        · exact ⟨v, he ▸ hf⟩
        · exact ih ws hm x hmem

/-! ### Finite facts about decimal renderings, by exhaustive checking -/

set_option maxRecDepth 4000 in
theorem octetRepr_all_digits :
    ∀ v : Fin 256, (Nat.repr v.1).data.all isAsciiDigit = true := by decide

set_option maxRecDepth 4000 in
theorem octetRepr_parse :
    ∀ v : Fin 256, parseOctet (Nat.repr v.1).data = some v.1 := by decide

set_option maxRecDepth 4000 in
theorem pfxRepr_netmask4 :
    ∀ p : Fin 33, makeNetmask4 (Nat.repr p.1) = some p.1 := by decide

set_option maxRecDepth 4000 in
theorem pfxRepr_all_digits :
    ∀ p : Fin 33, (Nat.repr p.1).data.all isAsciiDigit = true := by decide

theorem not_mem_of_all_digits {l : List Char} (h : l.all isAsciiDigit = true)
    {c : Char} (hc : isAsciiDigit c = false) : c ∉ l := by
  intro hm
  have := List.all_eq_true.1 h c hm
  rw [hc] at this
  exact Bool.noConfusion this

/-! ### Facts extracted from parser success -/

theorem parseOctet_facts {l : List Char} {v : Nat}
    (h : parseOctet l = some v) :
    l.all isAsciiDigit = true ∧ l ≠ [] ∧ v ≤ 255 := by
  unfold parseOctet at h
  split_ifs at h with h1 h2 h3 h4 <;> simp_all
  omega

theorem mapM_out_mem {α β : Type} (f : α → Option β) :
    ∀ (l : List α) (vs : List β), l.mapM f = some vs →
      ∀ v ∈ vs, ∃ x ∈ l, f x = some v := by
  intro l
  induction l with
  | nil =>
    intro vs h v hv
    simp only [List.mapM_nil, Option.pure_def, Option.some.injEq] at h
    subst h
    simp at hv
  | cons y ys ih =>
    intro vs h v hv
    rw [List.mapM_cons] at h
    rcases hf : f y with _ | w
    · rw [hf] at h; simp at h
    · rw [hf] at h
      simp only [Option.bind_eq_bind, Option.some_bind] at h
      rcases hm : ys.mapM f with _ | ws
      · rw [hm] at h; simp at h
      · rw [hm] at h
        simp only [Option.bind_eq_bind, Option.some_bind, Option.pure_def,
          Option.some.injEq] at h
        subst h
        rcases List.mem_cons.1 hv with he | hmem
        · exact ⟨y, by simp, he ▸ hf⟩
        · obtain ⟨x, hx, hfx⟩ := ih ws hm v hmem
          exact ⟨x, List.mem_cons_of_mem y hx, hfx⟩

theorem parseIPv4_facts {s : String} {v : Nat} (h : parseIPv4 s = some v) :
    (∀ p ∈ splitCh '.' s.data, p.all isAsciiDigit = true) ∧ v < 2 ^ 32 := by
  unfold parseIPv4 at h
  simp only [] at h
  split_ifs at h with h1 h2
  rcases hm : (splitCh '.' s.data).mapM parseOctet with _ | vs
  · rw [hm] at h; simp at h
  · rw [hm] at h
    have hall : ∀ p ∈ splitCh '.' s.data, p.all isAsciiDigit = true := by
      intro p hp
      obtain ⟨w, hw⟩ := mapM_mem_some parseOctet _ vs hm p hp
      exact (parseOctet_facts hw).1
    refine ⟨hall, ?_⟩
    have hbound : ∀ w ∈ vs, w ≤ 255 := by
      intro w hw
      obtain ⟨x, _, hx⟩ := mapM_out_mem parseOctet _ vs hm w hw
      exact (parseOctet_facts hx).2.2
    rcases vs with _ | ⟨a, _ | ⟨b, _ | ⟨c, _ | ⟨d, _ | ⟨e, rest⟩⟩⟩⟩⟩ <;> simp_all
    omega

theorem parseIPv4_no_slash {s : String} {v : Nat}
    (h : parseIPv4 s = some v) : '/' ∉ s.data := by
  intro hm
  rcases mem_of_mem_splitCh '.' s.data '/' hm with hc | ⟨p, hp, hin⟩
  · exact absurd hc (by decide)
  · have hd := (parseIPv4_facts h).1 p hp
    have := List.all_eq_true.1 hd '/' hin
    exact absurd this (by decide)

theorem parseIPv4Addr_some {s : String} {v : Nat}
    (h : parseIPv4Addr s = some v) :
    parseIPv4 s = some v ∧ '/' ∉ s.data := by
  unfold parseIPv4Addr at h
  split_ifs at h with h1
  exact ⟨h, by simpa using h1⟩

theorem pfxFromIpInt_le {maxLen ipInt p : Nat}
    (h : pfxFromIpInt maxLen ipInt = some p) : p ≤ maxLen := by
  unfold pfxFromIpInt at h
  simp only [] at h
  split_ifs at h
  simp only [Option.some.injEq] at h
  omega

theorem pfxFromPfxString_facts {maxLen : Nat} {s : String} {p : Nat}
    (h : pfxFromPfxString maxLen s = some p) :
    p ≤ maxLen ∧ s.data.all isAsciiDigit = true := by
  unfold pfxFromPfxString at h
  simp only [] at h
  split_ifs at h with hd hle
  simp only [Option.some.injEq] at h
  subst h
  refine ⟨hle, ?_⟩
  simp only [Bool.and_eq_true, decide_eq_true_eq] at hd
  exact hd.2

theorem makeNetmask4_facts {s : String} {p : Nat}
    (h : makeNetmask4 s = some p) : p ≤ 32 ∧ '/' ∉ s.data := by
  unfold makeNetmask4 at h
  rcases h1 : pfxFromPfxString 32 s with _ | q
  · rw [h1] at h
    dsimp only at h
    unfold pfxFromIpString4 at h
    rcases h2 : parseIPv4 s with _ | ip
    · rw [h2] at h; simp at h
    · rw [h2] at h
      dsimp only at h
      have hns := parseIPv4_no_slash h2
      rcases h3 : pfxFromIpInt 32 ip with _ | q2
      · rw [h3] at h
        dsimp only at h
        exact ⟨pfxFromIpInt_le h, hns⟩
      · rw [h3] at h
        simp only [Option.some.injEq] at h
        subst h
        exact ⟨pfxFromIpInt_le h3, hns⟩
  · rw [h1] at h
    simp only [Option.some.injEq] at h
    subst h
    obtain ⟨hle, hall⟩ := pfxFromPfxString_facts h1
    exact ⟨hle, not_mem_of_all_digits hall (by decide)⟩

/-! ### Bitwise properties of the IPv4 mask arithmetic -/

theorem v4mask_testBit (p i : Nat) :
    (v4mask p).testBit i = (decide (i < 32) && !decide (p + i < 32)) := by
  unfold v4mask maskOfLen
  simp only [Nat.testBit_xor, Nat.testBit_shiftRight, Nat.testBit_two_pow_sub_one]
  by_cases h1 : i < 32 <;> by_cases h2 : p + i < 32 <;>
    simp [h1, h2] <;> omega

theorem hostmask4_eq (p : Nat) :
    v4mask p ^^^ (2 ^ 32 - 1) = 2 ^ (32 - p) - 1 := by
  apply Nat.eq_of_testBit_eq
  intro i
  rw [Nat.testBit_xor, v4mask_testBit]
  simp only [Nat.testBit_two_pow_sub_one]
  by_cases h1 : i < 32 <;> by_cases h2 : p + i < 32 <;>
    by_cases h3 : i < 32 - p <;> simp [h1, h2, h3] <;> omega

theorem netAddr_mod (a p : Nat) : (a &&& v4mask p) % 2 ^ (32 - p) = 0 := by
  rw [← Nat.and_pow_two_sub_one_eq_mod]
  apply Nat.eq_of_testBit_eq
  intro i
  simp only [Nat.testBit_and, v4mask_testBit, Nat.testBit_two_pow_sub_one,
    Nat.zero_testBit]
  by_cases h1 : i < 32 <;> by_cases h2 : p + i < 32 <;>
    by_cases h3 : i < 32 - p <;> simp [h1, h2, h3] <;> omega

theorem v4bcast_eq_add (a p : Nat) :
    v4bcast ⟨a &&& v4mask p, p⟩ = (a &&& v4mask p) + (2 ^ (32 - p) - 1) := by
  show (a &&& v4mask p) ||| (v4mask p ^^^ (2 ^ 32 - 1)) = _
  rw [hostmask4_eq]
  obtain ⟨q, hq⟩ := Nat.dvd_of_mod_eq_zero (netAddr_mod a p)
  rw [hq]
  have hb : 2 ^ (32 - p) - 1 < 2 ^ (32 - p) :=
    Nat.sub_lt (Nat.two_pow_pos _) one_pos
  exact (Nat.mul_add_lt_is_or hb q).symm

/-! ### The IPv4 success path of process_address -/

theorem string_mk_data (s : String) : String.mk s.data = s := rfl

theorem concat_data (aS pS : String) :
    (aS ++ "/" ++ pS).data = aS.data ++ '/' :: pS.data := by
  simp [String.data_append]

theorem pySplit_concat (aS pS : String) (ha : '/' ∉ aS.data)
    (hp : '/' ∉ pS.data) : pySplit '/' (aS ++ "/" ++ pS) = [aS, pS] := by
  unfold pySplit
  rw [concat_data, splitCh_append _ _ _ ha, splitCh_not_mem _ _ hp]
  simp [string_mk_data]

theorem mkV4Net_eq {aS pS : String} {a p : Nat}
    (h1 : parseIPv4Addr aS = some a) (h2 : makeNetmask4 pS = some p) :
    mkV4Net aS pS = some ⟨a &&& v4mask p, p⟩ := by
  unfold mkV4Net
  rw [h1, h2]

theorem mkV4NetStr_eq {aS pS : String} {a p : Nat}
    (h1 : parseIPv4Addr aS = some a) (h2 : makeNetmask4 pS = some p) :
    mkV4NetStr (aS ++ "/" ++ pS) = some ⟨a &&& v4mask p, p⟩ := by
  unfold mkV4NetStr
  rw [pySplit_concat aS pS (parseIPv4Addr_some h1).2 (makeNetmask4_facts h2).2]
  exact mkV4Net_eq h1 h2

theorem mkV4ItfStr_eq {aS pS : String} {a p : Nat}
    (h1 : parseIPv4Addr aS = some a) (h2 : makeNetmask4 pS = some p) :
    mkV4ItfStr (aS ++ "/" ++ pS) = some ⟨a, p⟩ := by
  unfold mkV4ItfStr
  rw [pySplit_concat aS pS (parseIPv4Addr_some h1).2 (makeNetmask4_facts h2).2]
  dsimp only
  rw [h1, h2]

theorem getAddressVersion_four {aS : String} {a : Nat}
    (h1 : parseIPv4Addr aS = some a) : getAddressVersion aS = 4 := by
  unfold getAddressVersion
  rw [h1]
  rfl

theorem processAddress_v4 {aS pS : String} {a p : Nat}
    (h1 : parseIPv4Addr aS = some a) (h2 : makeNetmask4 pS = some p) :
    processAddress (aS ++ "/" ++ pS) =
      (0, printInfoLines "IPv4 Address Information"
        (calculateIPv4 ⟨a &&& v4mask p, p⟩ ⟨a, p⟩)) := by
  unfold processAddress
  rw [pySplit_concat aS pS (parseIPv4Addr_some h1).2 (makeNetmask4_facts h2).2]
  dsimp only
  rw [getAddressVersion_four h1]
  rw [if_neg (by decide), if_pos rfl]
  rw [mkV4NetStr_eq h1 h2, mkV4ItfStr_eq h1 h2]

/-! ### Totality and error shape of process_address -/

theorem processAddress_shape (s : String) :
    (processAddress s).1 = 0 ∨
    ((processAddress s).1 = -1 ∧
      ∃ m, (processAddress s).2 = [m] ∧ m.take 7 = "Error: ") := by
  unfold processAddress
  rcases pySplit '/' s with _ | ⟨a, _ | ⟨b, _ | ⟨c, t⟩⟩⟩
  · exact Or.inr ⟨rfl, errFormat, rfl, by decide⟩
  · exact Or.inr ⟨rfl, errFormat, rfl, by decide⟩
  · dsimp only
    split_ifs with h1 h2 h3
    · exact Or.inr ⟨rfl, errAddress, rfl, by decide⟩
    · rcases mkV4NetStr (a ++ "/" ++ b) with _ | net <;>
        rcases mkV4ItfStr (a ++ "/" ++ b) with _ | itf <;> dsimp only
      · exact Or.inr ⟨rfl, errNetSpec, rfl, by decide⟩
      · exact Or.inr ⟨rfl, errNetSpec, rfl, by decide⟩
      · exact Or.inr ⟨rfl, errNetSpec, rfl, by decide⟩
      · exact Or.inl rfl
    · rcases mkV6NetStr (a ++ "/" ++ b) with _ | net <;> dsimp only
      · exact Or.inr ⟨rfl, errNetSpec, rfl, by decide⟩
      · rcases calculateIPv6 net with _ | info <;> dsimp only
        · exact Or.inr ⟨rfl, errNetSpec, rfl, by decide⟩
        · exact Or.inl rfl
    · exact Or.inr ⟨rfl, errUnknown, rfl, by decide⟩
  · exact Or.inr ⟨rfl, errFormat, rfl, by decide⟩

theorem processAddress_total (s : String) :
    (processAddress s).1 = 0 ∨ (processAddress s).1 = -1 := by
  rcases processAddress_shape s with h | h
  · exact Or.inl h
  · exact Or.inr h.1

/-! ### Helper facts for the driver claims -/

theorem getAddressVersion_four_inv {a : String}
    (h : getAddressVersion a = 4) : ∃ v, parseIPv4Addr a = some v := by
  unfold getAddressVersion at h
  by_cases h1 : (parseIPv4Addr a).isSome
  · exact Option.isSome_iff_exists.1 h1
  · rw [if_neg h1] at h
    by_cases h2 : (parseIPv6AddrScoped a).isSome
    · rw [if_pos h2] at h
      exact absurd h (by decide)
    · rw [if_neg h2] at h
      exact absurd h (by decide)

theorem pySplit_pair_data {s a b : String}
    (h : pySplit '/' s = [a, b]) :
    splitCh '/' s.data = [a.data, b.data] ∧ '/' ∉ a.data ∧ '/' ∉ b.data := by
  unfold pySplit at h
  have hd := congrArg (List.map String.data) h
  rw [List.map_map] at hd
  have hdd : (splitCh '/' s.data).map (String.data ∘ String.mk) =
      splitCh '/' s.data := by
    apply List.map_id''
    intro l
    rfl
  rw [hdd] at hd
  simp only [List.map_cons, List.map_nil] at hd
  refine ⟨hd, ?_, ?_⟩
  · exact splitCh_pieces_not_mem '/' s.data a.data (by rw [hd]; simp)
  · exact splitCh_pieces_not_mem '/' s.data b.data (by rw [hd]; simp)

theorem mkV4Net_none {aS pS : String} (h : makeNetmask4 pS = none) :
    mkV4Net aS pS = none := by
  unfold mkV4Net
  rw [h]
  rcases parseIPv4Addr aS with _ | v <;> rfl

theorem runArgs_ok {args : List String}
    (hh : "-h" ∉ args) (hhh : "--help" ∉ args)
    (hok : ∀ x ∈ args, (processAddress x).1 = 0) :
    (runArgs args).1 = 0 := by
  induction args with
  | nil => rfl
  | cons a rest ih =>
    have ha : a ≠ "-h" := by
      intro he
      exact hh (he ▸ List.mem_cons_self a rest)
    have hb : a ≠ "--help" := by
      intro he
      exact hhh (he ▸ List.mem_cons_self a rest)
    unfold runArgs
    rw [if_neg (by simp [ha, hb])]
    dsimp only
    rw [if_neg (by simp [hok a (List.mem_cons_self a rest)])]
    exact ih (fun hm => hh (List.mem_cons_of_mem a hm))
      (fun hm => hhh (List.mem_cons_of_mem a hm))
      (fun x hx => hok x (List.mem_cons_of_mem a hx))

theorem runArgs_cons_ok {a : String} {rest : List String}
    (ha : a ≠ "-h") (hb : a ≠ "--help")
    (h0 : (processAddress a).1 = 0) :
    runArgs (a :: rest) =
      ((runArgs rest).1,
        (("Processing: " ++ a) :: (processAddress a).2 ++ [""]) ++
          (runArgs rest).2) := by
  rw [runArgs]
  rw [if_neg (by simp [ha, hb])]
  dsimp only
  rw [if_neg (by simp [h0])]

theorem runArgs_cons_fail {a : String} {rest : List String}
    (ha : a ≠ "-h") (hb : a ≠ "--help")
    (hf : (processAddress a).1 ≠ 0) :
    runArgs (a :: rest) =
      ((processAddress a).1, ("Processing: " ++ a) :: (processAddress a).2) := by
  rw [runArgs]
  rw [if_neg (by simp [ha, hb])]
  dsimp only
  rw [if_pos hf]

theorem runArgs_fail_frame {bad : String} :
    ∀ (good rest : List String),
      "-h" ∉ good ++ bad :: rest → "--help" ∉ good ++ bad :: rest →
      (∀ x ∈ good, (processAddress x).1 = 0) →
      (processAddress bad).1 ≠ 0 →
      (runArgs (good ++ bad :: rest)).1 = -1 ∧
        runArgs (good ++ bad :: rest) = runArgs (good ++ [bad])
  | [], rest, hh, hhh, _, hbad => by
    have ha : bad ≠ "-h" := by
      intro he
      exact hh (by simp [he])
    have hb : bad ≠ "--help" := by
      intro he
      exact hhh (by simp [he])
    have hm1 : (processAddress bad).1 = -1 := by
      rcases processAddress_total bad with h | h
      · exact absurd h hbad
      · exact h
    rw [List.nil_append, List.nil_append]
    rw [runArgs_cons_fail ha hb hbad]
    exact ⟨hm1, by rw [runArgs_cons_fail ha hb hbad]⟩
  | g :: gs, rest, hh, hhh, hgood, hbad => by
    have hag : g ≠ "-h" := by
      intro he
      exact hh (by simp [he])
    have hbg : g ≠ "--help" := by
      intro he
      exact hhh (by simp [he])
    have ihh := runArgs_fail_frame gs rest
      (fun hm => hh (by simp only [List.cons_append]; exact List.mem_cons_of_mem g hm))
      (fun hm => hhh (by simp only [List.cons_append]; exact List.mem_cons_of_mem g hm))
      (fun x hx => hgood x (List.mem_cons_of_mem g hx))
      hbad
    have e1 := @runArgs_cons_ok g (gs ++ bad :: rest) hag hbg
      (hgood g (by simp))
    have e2 := @runArgs_cons_ok g (gs ++ [bad]) hag hbg
      (hgood g (by simp))
    constructor
    · rw [List.cons_append g gs (bad :: rest), e1]
      exact ihh.1
    · rw [List.cons_append g gs (bad :: rest), e1,
        List.cons_append g gs [bad], e2, ihh.2]

/-- C7: in one-shot mode (modelled by runArgs over the positional
arguments, none of which is a help flag), if every argument is
processed successfully the exit status is 0; and as soon as the
processing of some argument fails, the exit status is the nonzero -1
return value and the run is literally the run that ends at the failing
argument, so no later argument is ever processed. -/
theorem claimC7_oneshot_abort (args : List String)
    (hh : "-h" ∉ args) (hhh : "--help" ∉ args) :
    ((∀ x ∈ args, (processAddress x).1 = 0) → (runArgs args).1 = 0) ∧
    (∀ good bad rest, args = good ++ bad :: rest →
      (∀ x ∈ good, (processAddress x).1 = 0) →
      (processAddress bad).1 ≠ 0 →
      (runArgs args).1 = -1 ∧ runArgs args = runArgs (good ++ [bad])) := by
  constructor
  · exact fun hok => runArgs_ok hh hhh hok
  · intro good bad rest heq hgood hbad
    subst heq
    exact runArgs_fail_frame good rest hh hhh hgood hbad

/-- Witness for C7 at concrete inputs: a run of two good arguments
exits 0, and a run that fails on its first argument exits -1 without
looking at the second. -/
theorem claimC7_oneshot_abort_witness :
    (runArgs ["10.0.0.5/24"]).1 = 0 ∧
    (runArgs ["nonsense", "10.0.0.5/24"]).1 = -1 ∧
    runArgs ["nonsense", "10.0.0.5/24"] = runArgs ["nonsense"] := by
  have g := claimC7_oneshot_abort ["10.0.0.5/24"] (by decide) (by decide)
  have h := claimC7_oneshot_abort ["nonsense", "10.0.0.5/24"]
    (by decide) (by decide)
  have h2 := h.2 [] "nonsense" ["10.0.0.5/24"] rfl (by simp) (by decide)
  refine ⟨g.1 ?_, h2.1, h2.2⟩
  intro x hx
  have : x = "10.0.0.5/24" := by simpa using hx
  rw [this]
  decide

/-- C8: in interactive mode, the exit status is 0 for every event
sequence; a line whose stripped form is an exit command (exit, quit or
q, case insensitively, which is what isExitCmd tests) ends the session
at once with nothing processed; a blank line is skipped; any other line
is processed and the loop continues no matter what process_address
returned; interrupt and end of input end the session with status 0. -/
theorem claimC8_interactive_loop :
    (∀ evs, (interactiveRun evs).1 = 0) ∧
    (∀ t, isExitCmd t = true ↔
      (pyLower t = "exit" ∨ pyLower t = "quit" ∨ pyLower t = "q")) ∧
    (∀ s rest, isExitCmd (pyStrip s) = true →
      interactiveRun (.line s :: rest) = (0, [])) ∧
    (∀ s rest, pyStrip s = "" →
      interactiveRun (.line s :: rest) = interactiveRun rest) ∧
    (∀ s rest, isExitCmd (pyStrip s) = false → pyStrip s ≠ "" →
      interactiveRun (.line s :: rest) =
        ((interactiveRun rest).1, pyStrip s :: (interactiveRun rest).2)) ∧
    (∀ rest, interactiveRun (.interrupt :: rest) = (0, [])) ∧
    (∀ rest, interactiveRun (.endOfInput :: rest) = (0, [])) := by
  refine ⟨?_, ?_, ?_, ?_, ?_, fun _ => rfl, fun _ => rfl⟩
  · intro evs
    induction evs with
    | nil => rfl
    | cons e rest ih =>
      cases e with
      | interrupt => rfl
      | endOfInput => rfl
      | line s =>
        rw [interactiveRun]
        dsimp only
        by_cases h1 : isExitCmd (pyStrip s)
        · rw [if_pos h1]
        · rw [if_neg h1]
          by_cases h2 : pyStrip s = ""
          · rw [if_pos h2]
            exact ih
          · rw [if_neg h2]
            exact ih
  · intro t
    simp [isExitCmd, or_assoc]
  · intro s rest h1
    rw [interactiveRun]
    dsimp only
    rw [if_pos h1]
  · intro s rest h2
    rw [interactiveRun]
    dsimp only
    rw [h2]
    rw [if_neg (by decide), if_pos rfl]
  · intro s rest h1 h2
    rw [interactiveRun]
    dsimp only
    rw [if_neg (by simp [h1]), if_neg h2]

/-- Witness for C8 at concrete inputs: a first line EXIT (after
stripping and lowering) ends the session with status 0 and no processed
lines; a bad line does not end the loop. -/
theorem claimC8_interactive_loop_witness :
    interactiveRun [.line "  QUIT ", .line "10.0.0.5/24"] = (0, []) ∧
    interactiveRun [.line " ", .interrupt] = (0, []) ∧
    interactiveRun [.line "nonsense", .endOfInput] = (0, ["nonsense"]) := by
  refine ⟨claimC8_interactive_loop.2.2.1 "  QUIT " _ (by decide), ?_, ?_⟩
  · rw [claimC8_interactive_loop.2.2.2.1 " " [.interrupt] (by decide)]
    exact claimC8_interactive_loop.2.2.2.2.2.1 []
  · rw [claimC8_interactive_loop.2.2.2.2.1 "nonsense" [.endOfInput]
      (by decide) (by decide)]
    rfl

/-- C10: process_address is total with result 0 or -1; every failure
prints exactly one Error line; an input that does not split at a slash
into exactly two pieces is rejected with the format error; an input
whose address part is neither IPv4 nor IPv6 is rejected with the
address error; an IPv4 input with an invalid prefix is rejected with
the network specification error. -/
theorem claimC10_total_errors (s : String) :
    ((processAddress s).1 = 0 ∨
      ((processAddress s).1 = -1 ∧
        ∃ m, (processAddress s).2 = [m] ∧ m.take 7 = "Error: ")) ∧
    ((pySplit '/' s).length ≠ 2 → processAddress s = (-1, [errFormat])) ∧
    (∀ a b, pySplit '/' s = [a, b] → getAddressVersion a = -1 →
      processAddress s = (-1, [errAddress])) ∧
    (∀ a b, pySplit '/' s = [a, b] → getAddressVersion a = 4 →
      makeNetmask4 b = none → processAddress s = (-1, [errNetSpec])) := by
  refine ⟨processAddress_shape s, ?_, ?_, ?_⟩
  · intro hlen
    unfold processAddress
    rcases hsp : pySplit '/' s with _ | ⟨a, _ | ⟨b, _ | ⟨c, t⟩⟩⟩
    · rfl
    · rfl
    · rw [hsp] at hlen
      simp at hlen
    · rfl
  · intro a b hsp hv
    unfold processAddress
    rw [hsp]
    dsimp only
    rw [if_pos hv]
  · intro a b hsp hv hmn
    obtain ⟨hdata, hna, hnb⟩ := pySplit_pair_data hsp
    obtain ⟨v, hva⟩ := getAddressVersion_four_inv hv
    have hnet : mkV4NetStr (a ++ "/" ++ b) = none := by
      unfold mkV4NetStr
      rw [pySplit_concat a b hna hnb]
      exact mkV4Net_none hmn
    have hitf : mkV4ItfStr (a ++ "/" ++ b) = none := by
      unfold mkV4ItfStr
      rw [pySplit_concat a b hna hnb]
      dsimp only
      rw [hmn]
      rcases parseIPv4Addr a with _ | w <;> rfl
    unfold processAddress
    rw [hsp]
    dsimp only
    rw [if_neg (by rw [hv]; decide), if_pos hv, hnet, hitf]

/-- Witness for C10 at concrete inputs: a slash-free input, a
double-slash input, a bogus address, and an out-of-range prefix are all
rejected with status -1 and the corresponding single error line. -/
theorem claimC10_total_errors_witness :
    processAddress "10.0.0.5" = (-1, [errFormat]) ∧
    processAddress "1/2/3" = (-1, [errFormat]) ∧
    processAddress "nonsense/24" = (-1, [errAddress]) ∧
    processAddress "10.0.0.5/33" = (-1, [errNetSpec]) := by
  refine ⟨(claimC10_total_errors "10.0.0.5").2.1 (by decide),
    (claimC10_total_errors "1/2/3").2.1 (by decide),
    (claimC10_total_errors "nonsense/24").2.2.1 "nonsense" "24"
      (by decide) (by decide),
    (claimC10_total_errors "10.0.0.5/33").2.2.2 "10.0.0.5" "33"
      (by decide) (by decide) (by decide)⟩

/-! ### The closed form of the mask and the host count -/

theorem v4mask_closed_form (p : Nat) (hp : p ≤ 32) :
    v4mask p = 2 ^ 32 - 2 ^ (32 - p) := by
  have hrw : 2 ^ 32 - 2 ^ (32 - p) = 2 ^ (32 - p) * (2 ^ p - 1) := by
    have hs : (32 - p) + p = 32 := by omega
    rw [Nat.mul_sub, Nat.mul_one, ← pow_add, hs]
  rw [hrw]
  apply Nat.eq_of_testBit_eq
  intro i
  rw [v4mask_testBit, Nat.testBit_mul_pow_two]
  simp only [Nat.testBit_two_pow_sub_one]
  by_cases h1 : i < 32 <;> by_cases h2 : p + i < 32 <;>
    by_cases h3 : i ≥ 32 - p <;> by_cases h4 : i - (32 - p) < p <;>
    simp [h1, h2, h3, h4] <;> omega

/-- C1 (amended): for every accepted IPv4 input the host_count field is
the integer 2^(32-p) - 2 with no clamping, so it is 0 at p = 31 but -1
(not 0) at p = 32. -/
theorem claimC1_host_count (aS pS : String) (a p : Nat)
    (h1 : parseIPv4Addr aS = some a) (h2 : makeNetmask4 pS = some p) :
    List.lookup "host_count" (calculateIPv4 ⟨a &&& v4mask p, p⟩ ⟨a, p⟩) =
      some (.i ((2 : Int) ^ (32 - p) - 2)) ∧
    processAddress (aS ++ "/" ++ pS) =
      (0, printInfoLines "IPv4 Address Information"
        (calculateIPv4 ⟨a &&& v4mask p, p⟩ ⟨a, p⟩)) ∧
    (p = 31 → (2 : Int) ^ (32 - p) - 2 = 0) ∧
    (p = 32 → (2 : Int) ^ (32 - p) - 2 = -1) := by
  refine ⟨?_, processAddress_v4 h1 h2, ?_, ?_⟩
  · have hlk : List.lookup "host_count"
        (calculateIPv4 ⟨a &&& v4mask p, p⟩ ⟨a, p⟩) =
        some (.i (((v4bcast ⟨a &&& v4mask p, p⟩ : Int) -
          ((a &&& v4mask p : Nat) : Int) + 1) - 2)) := rfl
    rw [hlk, v4bcast_eq_add a p]
    have h1le : (1 : Nat) ≤ 2 ^ (32 - p) := Nat.one_le_two_pow
    have hcast : ((2 ^ (32 - p) : Nat) : Int) = (2 : Int) ^ (32 - p) := by
      push_cast
      ring
    simp only [Option.some.injEq, PyVal.i.injEq]
    rw [← hcast]
    omega
  · intro hp
    subst hp
    decide
  · intro hp
    subst hp
    decide

/-- Witness for C1 at 10.0.0.5/24: 254 usable hosts. -/
theorem claimC1_host_count_witness :
    List.lookup "host_count" (calculateIPv4 ⟨167772160, 24⟩ ⟨167772165, 24⟩) =
      some (.i 254) := by
  have h := (claimC1_host_count "10.0.0.5" "24" 167772165 24
    (by decide) (by decide)).1
  rw [show (167772165 &&& v4mask 24) = 167772160 from by decide] at h
  exact h.trans (by norm_num)

/-- C1 counterexample: the input 8.8.8.8/32 is accepted, its prefix is
32, and its host_count field is -1, not the claimed clamped 0. -/
theorem claimC1_counterexample :
    mkV4NetStr "8.8.8.8/32" = some ⟨134744072, 32⟩ ∧
    mkV4ItfStr "8.8.8.8/32" = some ⟨134744072, 32⟩ ∧
    List.lookup "host_count" (calculateIPv4 ⟨134744072, 32⟩ ⟨134744072, 32⟩) =
      some (.i (-1)) ∧
    "host_count          : -1" ∈ (processAddress "8.8.8.8/32").2 ∧
    ¬ List.lookup "host_count" (calculateIPv4 ⟨134744072, 32⟩ ⟨134744072, 32⟩) =
      some (.i 0) := by decide

/-- C3 (confirmed): every dotted-quad with any prefix string accepted by
the netmask parser is processed successfully (host bits are not
rejected), the network_address field renders address AND mask, the
broadcast_address field renders network OR complement of mask, and the
Python mask of prefix p is the spec mask 2^32 - 2^(32-p). -/
theorem claimC3_network_broadcast (aS pS : String) (a p : Nat)
    (h1 : parseIPv4Addr aS = some a) (h2 : makeNetmask4 pS = some p) :
    (processAddress (aS ++ "/" ++ pS)).1 = 0 ∧
    List.lookup "network_address" (calculateIPv4 ⟨a &&& v4mask p, p⟩ ⟨a, p⟩) =
      some (.s (ipv4Str (a &&& v4mask p))) ∧
    List.lookup "broadcast_address" (calculateIPv4 ⟨a &&& v4mask p, p⟩ ⟨a, p⟩) =
      some (.s (ipv4Str ((a &&& v4mask p) ||| (v4mask p ^^^ (2 ^ 32 - 1))))) ∧
    v4mask p = 2 ^ 32 - 2 ^ (32 - p) := by
  refine ⟨?_, rfl, rfl, v4mask_closed_form p (makeNetmask4_facts h2).1⟩
  rw [processAddress_v4 h1 h2]

/-- Witness for C3 at 10.0.0.5/24 (host bits set, still accepted). -/
theorem claimC3_network_broadcast_witness :
    (processAddress "10.0.0.5/24").1 = 0 ∧ v4mask 24 = 2 ^ 32 - 2 ^ 8 := by
  have h := claimC3_network_broadcast "10.0.0.5" "24" 167772165 24
    (by decide) (by decide)
  exact ⟨h.1, h.2.2.2⟩

/-- C6 (confirmed): the is_network_address field is true exactly when
the input address equals the computed network address, and the
is_broadcast_address field is true exactly when it equals the computed
broadcast address. -/
theorem claimC6_self_flags (aS pS : String) (a p : Nat)
    (h1 : parseIPv4Addr aS = some a) (h2 : makeNetmask4 pS = some p) :
    (List.lookup "is_network_address"
        (calculateIPv4 ⟨a &&& v4mask p, p⟩ ⟨a, p⟩) = some (.b true) ↔
      a &&& v4mask p = a) ∧
    (List.lookup "is_broadcast_address"
        (calculateIPv4 ⟨a &&& v4mask p, p⟩ ⟨a, p⟩) = some (.b true) ↔
      (a &&& v4mask p) ||| (v4mask p ^^^ (2 ^ 32 - 1)) = a) ∧
    (processAddress (aS ++ "/" ++ pS)).1 = 0 := by
  refine ⟨?_, ?_, by rw [processAddress_v4 h1 h2]⟩
  · have hlk : List.lookup "is_network_address"
        (calculateIPv4 ⟨a &&& v4mask p, p⟩ ⟨a, p⟩) =
        some (.b ((a &&& v4mask p) == a)) := rfl
    rw [hlk]
    simp
  · have hlk : List.lookup "is_broadcast_address"
        (calculateIPv4 ⟨a &&& v4mask p, p⟩ ⟨a, p⟩) =
        some (.b (v4bcast ⟨a &&& v4mask p, p⟩ == a)) := rfl
    rw [hlk]
    show some (PyVal.b (((a &&& v4mask p) ||| (v4mask p ^^^ (2 ^ 32 - 1))) == a)) =
        some (PyVal.b true) ↔ _
    simp

/-- Witness for C6 at 192.168.1.0/24: the address is its own network
address and not the broadcast address. -/
theorem claimC6_self_flags_witness :
    List.lookup "is_network_address"
      (calculateIPv4 ⟨3232235776, 24⟩ ⟨3232235776, 24⟩) = some (.b true) ∧
    ¬ List.lookup "is_broadcast_address"
      (calculateIPv4 ⟨3232235776, 24⟩ ⟨3232235776, 24⟩) = some (.b true) := by
  have h := claimC6_self_flags "192.168.1.0" "24" 3232235776 24
    (by decide) (by decide)
  rw [show (3232235776 &&& v4mask 24) = 3232235776 from by decide] at h
  constructor
  · exact h.1.2 rfl
  · intro hb
    have := h.2.1.1 hb
    revert this
    decide

/-! ### Round trip from a value through its dotted form -/

theorem octetRepr_no_dot {v : Nat} (hv : v ≤ 255) :
    '.' ∉ (Nat.repr v).data :=
  not_mem_of_all_digits (octetRepr_all_digits ⟨v, by omega⟩) (by decide)

theorem ipv4Str_data (n : Nat) :
    (ipv4Str n).data =
      joinCh '.' [(Nat.repr ((n >>> 24) &&& 255)).data,
        (Nat.repr ((n >>> 16) &&& 255)).data,
        (Nat.repr ((n >>> 8) &&& 255)).data,
        (Nat.repr (n &&& 255)).data] := rfl

theorem ipv4Str_split (n : Nat) :
    splitCh '.' (ipv4Str n).data =
      [(Nat.repr ((n >>> 24) &&& 255)).data,
        (Nat.repr ((n >>> 16) &&& 255)).data,
        (Nat.repr ((n >>> 8) &&& 255)).data,
        (Nat.repr (n &&& 255)).data] := by
  rw [ipv4Str_data]
  apply splitCh_joinCh '.' _ (by simp)
  intro x hx
  simp only [List.mem_cons, List.not_mem_nil, or_false] at hx
  rcases hx with h | h | h | h <;> subst h <;>
    exact octetRepr_no_dot Nat.and_le_right

theorem ipv4Str_ne_nil (n : Nat) : (ipv4Str n).data ≠ [] := by
  rw [ipv4Str_data, joinCh_cons _ _ _ (by simp)]
  intro h
  simp at h

theorem ipv4Str_no_slash (n : Nat) : '/' ∉ (ipv4Str n).data := by
  intro hm
  rw [ipv4Str_data] at hm
  rcases mem_joinCh _ _ _ hm with hc | ⟨q, hq, hin⟩
  · exact absurd hc (by decide)
  · have hall : q.all isAsciiDigit = true := by
      simp only [List.mem_cons, List.not_mem_nil, or_false] at hq
      rcases hq with h | h | h | h <;> subst h <;>
        exact octetRepr_all_digits ⟨_, Nat.lt_succ_of_le Nat.and_le_right⟩
    have := List.all_eq_true.1 hall '/' hin
    exact absurd this (by decide)

theorem parseIPv4_ipv4Str (n : Nat) (hn : n < 2 ^ 32) :
    parseIPv4 (ipv4Str n) = some n := by
  unfold parseIPv4
  rw [if_neg (ipv4Str_ne_nil n)]
  dsimp only
  rw [ipv4Str_split]
  rw [if_neg (by simp)]
  have hp0 := octetRepr_parse ⟨(n >>> 24) &&& 255,
    Nat.lt_succ_of_le Nat.and_le_right⟩
  have hp1 := octetRepr_parse ⟨(n >>> 16) &&& 255,
    Nat.lt_succ_of_le Nat.and_le_right⟩
  have hp2 := octetRepr_parse ⟨(n >>> 8) &&& 255,
    Nat.lt_succ_of_le Nat.and_le_right⟩
  have hp3 := octetRepr_parse ⟨n &&& 255,
    Nat.lt_succ_of_le Nat.and_le_right⟩
  simp only [List.mapM_cons, List.mapM_nil, hp0, hp1, hp2, hp3,
    Option.bind_eq_bind, Option.some_bind, Option.pure_def]
  have hmod : (255 : Nat) = 2 ^ 8 - 1 := by norm_num
  have e0 : (n >>> 24) &&& 255 = n / 16777216 % 256 := by
    rw [hmod, Nat.and_pow_two_sub_one_eq_mod, Nat.shiftRight_eq_div_pow]
    try norm_num
  have e1 : (n >>> 16) &&& 255 = n / 65536 % 256 := by
    rw [hmod, Nat.and_pow_two_sub_one_eq_mod, Nat.shiftRight_eq_div_pow]
    try norm_num
  have e2 : (n >>> 8) &&& 255 = n / 256 % 256 := by
    rw [hmod, Nat.and_pow_two_sub_one_eq_mod, Nat.shiftRight_eq_div_pow]
    try norm_num
  have e3 : n &&& 255 = n % 256 := by
    rw [hmod, Nat.and_pow_two_sub_one_eq_mod]
    try norm_num
  have h32 : n < 4294967296 := by
    have : (2 : Nat) ^ 32 = 4294967296 := by norm_num
    omega
  rw [e0, e1, e2, e3]
  simp only [Option.some.injEq]
  omega

theorem parseIPv4Addr_ipv4Str (n : Nat) (hn : n < 2 ^ 32) :
    parseIPv4Addr (ipv4Str n) = some n := by
  unfold parseIPv4Addr
  rw [if_neg (by simpa using ipv4Str_no_slash n)]
  exact parseIPv4_ipv4Str n hn

theorem makeNetmask4_repr (p : Nat) (hp : p ≤ 32) :
    makeNetmask4 (Nat.repr p) = some p :=
  pfxRepr_netmask4 ⟨p, by omega⟩

/-! ### C5: the notational fields -/

/-- C5 (amended): for IPv4 the cidr field is the input address followed
by slash and the numeric prefix length, the cisco field is the address,
a space and the dotted mask, and the network-cidr field is the network
address with the prefix; for IPv6 both the cidr field and the
network-cidr field are built from the computed NETWORK address, not
from the input interface address. -/
theorem claimC5_fields (a p : Nat) (ha : a < 2 ^ 32) (hp : p ≤ 32) :
    processAddress (ipv4Str a ++ "/" ++ Nat.repr p) =
      (0, printInfoLines "IPv4 Address Information"
        (calculateIPv4 ⟨a &&& v4mask p, p⟩ ⟨a, p⟩)) ∧
    List.lookup "cidr_notation" (calculateIPv4 ⟨a &&& v4mask p, p⟩ ⟨a, p⟩) =
      some (.s (ipv4Str a ++ "/" ++ Nat.repr p)) ∧
    List.lookup "cisco_notation" (calculateIPv4 ⟨a &&& v4mask p, p⟩ ⟨a, p⟩) =
      some (.s (ipv4Str a ++ " " ++ ipv4Str (v4mask p))) ∧
    List.lookup "ubuntu_subnet" (calculateIPv4 ⟨a &&& v4mask p, p⟩ ⟨a, p⟩) =
      some (.s (ipv4Str (a &&& v4mask p) ++ "/" ++ Nat.repr p)) ∧
    (∀ net info, calculateIPv6 net = some info →
      List.lookup "cidr_notation" info =
        some (.s (v6AddrStr net.netAddr net.scope ++ "/" ++ Nat.repr net.pfxLen)) ∧
      List.lookup "ubuntu_notation" info =
        some (.s (v6AddrStr net.netAddr net.scope ++ "/" ++ Nat.repr net.pfxLen))) := by
  refine ⟨processAddress_v4 (parseIPv4Addr_ipv4Str a ha) (makeNetmask4_repr p hp),
    rfl, rfl, rfl, ?_⟩
  intro net info h
  unfold calculateIPv6 at h
  rcases hr : revPtr6 net with _ | rv
  · rw [hr] at h
    simp at h
  · rw [hr] at h
    simp only [Option.some.injEq] at h
    subst h
    exact ⟨rfl, rfl⟩

/-- Witness for C5 at 10.0.0.5/24. -/
theorem claimC5_fields_witness :
    List.lookup "cidr_notation" (calculateIPv4 ⟨167772160, 24⟩ ⟨167772165, 24⟩) =
      some (.s "10.0.0.5/24") := by
  have h := (claimC5_fields 167772165 24 (by norm_num) (by norm_num)).2.1
  rw [show (167772165 &&& v4mask 24) = 167772160 from by decide] at h
  exact h.trans (by decide)

/-- C5 counterexample: for the IPv6 input 2001:db8::1/64 the cidr field
is 2001:db8::/64 (the network), not the claimed original interface
address 2001:db8::1/64. -/
theorem claimC5_counterexample :
    mkV6NetStr "2001:db8::1/64" =
      some ⟨42540766411282592856903984951653826560, none, 64⟩ ∧
    (calculateIPv6 ⟨42540766411282592856903984951653826560, none, 64⟩).map
      (List.lookup "cidr_notation") = some (some (.s "2001:db8::/64")) ∧
    ¬ (calculateIPv6 ⟨42540766411282592856903984951653826560, none, 64⟩).map
      (List.lookup "cidr_notation") = some (some (.s "2001:db8::1/64")) := by
  decide

/-! ### C2: the reverse pointer and its round trip -/

theorem joinCh_append (c : Char) :
    ∀ (l1 l2 : List (List Char)), l1 ≠ [] → l2 ≠ [] →
      joinCh c (l1 ++ l2) = joinCh c l1 ++ c :: joinCh c l2
  | [], _, h1, _ => absurd rfl h1
  | [x], l2, _, h2 => by
    rw [List.singleton_append, joinCh_cons c x l2 h2]
    rfl
  | x :: y :: ys, l2, _, h2 => by
    rw [List.cons_append, joinCh_cons c x ((y :: ys) ++ l2) (by simp),
      joinCh_cons c x (y :: ys) (by simp),
      joinCh_append c (y :: ys) l2 (by simp) h2]
    simp

/-- Reconstruction of the name from a reverse-DNS pointer as the spec
describes the round trip: drop the final two arpa labels, reverse the
remaining labels and join them with dots.  (Modelled from the spec:
"reconstructing the address from the reverse-DNS label sequence".) -/
def reconstructArpa (r : String) : String :=
  String.mk (joinCh '.' (((splitCh '.' r.data).dropLast.dropLast).reverse))

theorem dropLast_two {α : Type} (xs : List α) (a b : α) :
    ((xs ++ [a, b]).dropLast).dropLast = xs := by
  have h1 : xs ++ [a, b] = (xs ++ [a]) ++ [b] := by simp
  rw [h1, List.dropLast_concat, List.dropLast_concat]

theorem reconstruct_revPtr4 (s : String) :
    reconstructArpa (revPtr4OfStr s) = s := by
  unfold reconstructArpa revPtr4OfStr
  rw [String.data_append]
  have hmk : (String.mk (joinCh '.' (splitCh '.' s.data).reverse)).data =
      joinCh '.' (splitCh '.' s.data).reverse := rfl
  rw [hmk]
  have harpa : (".in-addr.arpa" : String).data =
      '.' :: (("in-addr" : String).data ++
        '.' :: ("arpa" : String).data) := rfl
  rw [harpa]
  have hjoin : joinCh '.' (splitCh '.' s.data).reverse ++
      '.' :: (("in-addr" : String).data ++ '.' :: ("arpa" : String).data) =
      joinCh '.' ((splitCh '.' s.data).reverse ++
        [("in-addr" : String).data, ("arpa" : String).data]) := by
    rw [joinCh_append '.' _ _ (by
        simp only [ne_eq, List.reverse_eq_nil_iff]
        exact splitCh_ne_nil '.' s.data) (by simp)]
    rfl
  have hsplit2 : splitCh '.' (joinCh '.' ((splitCh '.' s.data).reverse ++
      [("in-addr" : String).data, ("arpa" : String).data])) =
      (splitCh '.' s.data).reverse ++
        [("in-addr" : String).data, ("arpa" : String).data] := by
    apply splitCh_joinCh '.' _ (by simp)
    intro x hx
    rcases List.mem_append.1 hx with hrev | htl
    · exact splitCh_pieces_not_mem '.' s.data x (List.mem_reverse.1 hrev)
    · simp only [List.mem_cons, List.not_mem_nil, or_false] at htl
      rcases htl with h | h <;> subst h <;> decide
  rw [hjoin, hsplit2, dropLast_two, List.reverse_reverse, joinCh_splitCh]

theorem pfxRepr_ne_nil :
    ∀ p : Fin 33, (Nat.repr p.1).data ≠ [] := by decide

/-- C2 (amended): the IPv4 reverse field is the dot-label reversal of
the whole interface string address/prefix (so its first label carries
the prefix), and rebuilding the name from the label sequence returns
address/prefix, which is never the bare original address; the IPv6
reverse field is the per-character ip6.arpa form of the exploded
NETWORK string, which contains the slash and prefix length. -/
theorem claimC2_reverse_roundtrip (aS pS : String) (a p : Nat)
    (h1 : parseIPv4Addr aS = some a) (h2 : makeNetmask4 pS = some p) :
    List.lookup "reverse" (calculateIPv4 ⟨a &&& v4mask p, p⟩ ⟨a, p⟩) =
      some (.s (revPtr4OfStr (ipv4Str a ++ "/" ++ Nat.repr p))) ∧
    reconstructArpa (revPtr4OfStr (ipv4Str a ++ "/" ++ Nat.repr p)) =
      ipv4Str a ++ "/" ++ Nat.repr p ∧
    ipv4Str a ++ "/" ++ Nat.repr p ≠ ipv4Str a ∧
    (∀ net e, v6ExplodedNet net = some e →
      revPtr6 net = some (String.mk (joinCh '.'
        ((e.data.reverse.filter (fun c => c ≠ ':')).map (fun c => [c]))) ++
        ".ip6.arpa") ∧ '/' ∈ e.data) := by
  refine ⟨rfl, reconstruct_revPtr4 _, ?_, ?_⟩
  · intro he
    have hlen := congrArg (fun t => t.data.length) he
    simp only [String.data_append] at hlen
    rw [List.length_append, List.length_append] at hlen
    have hp32 := (makeNetmask4_facts h2).1
    have hnn : (Nat.repr p).data ≠ [] := pfxRepr_ne_nil ⟨p, by omega⟩
    have hpos : 0 < (Nat.repr p).data.length := List.length_pos.2 hnn
    have hslash : ("/" : String).data.length = 1 := rfl
    omega
  · intro net e he
    constructor
    · unfold revPtr6
      rw [he]
      rfl
    · unfold v6ExplodedNet at he
      rcases hp : parseIPv6 (v6AddrStr net.netAddr net.scope) with _ | ip
      · rw [hp] at he
        simp at he
      · rw [hp] at he
        simp only [Option.some.injEq] at he
        subst he
        simp [String.data_append]

/-- Witness for C2: the interface string of 10.0.0.5/24 is recovered
from its reverse pointer labels, and a concrete IPv6 network shows the
slash inside the exploded string behind the reverse field. -/
theorem claimC2_reverse_roundtrip_witness :
    reconstructArpa (revPtr4OfStr (ipv4Str 167772165 ++ "/" ++ Nat.repr 24)) =
      ipv4Str 167772165 ++ "/" ++ Nat.repr 24 ∧
    '/' ∈ ("2001:0db8:0000:0000:0000:0000:0000:0000/64" : String).data := by
  have h := claimC2_reverse_roundtrip "10.0.0.5" "24" 167772165 24
    (by decide) (by decide)
  refine ⟨h.2.1, ?_⟩
  have h6 := h.2.2.2 ⟨42540766411282592856903984951653826560, none, 64⟩
    "2001:0db8:0000:0000:0000:0000:0000:0000/64" (by decide)
  exact h6.2

/-- C2 counterexample: for the input 10.0.0.5/24 the reverse field is
5/24.0.0.10.in-addr.arpa, not the claimed four-octet reversal
5.0.0.10.in-addr.arpa, and the label round trip returns 10.0.0.5/24,
not the original address 10.0.0.5. -/
theorem claimC2_counterexample :
    mkV4NetStr "10.0.0.5/24" = some ⟨167772160, 24⟩ ∧
    mkV4ItfStr "10.0.0.5/24" = some ⟨167772165, 24⟩ ∧
    List.lookup "reverse" (calculateIPv4 ⟨167772160, 24⟩ ⟨167772165, 24⟩) =
      some (.s "5/24.0.0.10.in-addr.arpa") ∧
    ¬ List.lookup "reverse" (calculateIPv4 ⟨167772160, 24⟩ ⟨167772165, 24⟩) =
      some (.s "5.0.0.10.in-addr.arpa") ∧
    reconstructArpa "5/24.0.0.10.in-addr.arpa" = "10.0.0.5/24" ∧
    ¬ ("10.0.0.5/24" : String) = "10.0.0.5" := by decide

/-! ### C4: classification is a property of the network range -/

theorem mask_mask {q p : Nat} (hqp : q ≤ p) (a : Nat) :
    (a &&& v4mask p) &&& v4mask q = a &&& v4mask q := by
  apply Nat.eq_of_testBit_eq
  intro i
  simp only [Nat.testBit_and, v4mask_testBit]
  by_cases h1 : i < 32 <;> by_cases h2 : p + i < 32 <;>
    by_cases h3 : q + i < 32 <;> simp [h1, h2, h3] <;> omega

theorem hostmask_and_mask {q p : Nat} (hqp : q ≤ p) :
    (v4mask p ^^^ (2 ^ 32 - 1)) &&& v4mask q = 0 := by
  rw [hostmask4_eq]
  apply Nat.eq_of_testBit_eq
  intro i
  simp only [Nat.testBit_and, v4mask_testBit, Nat.testBit_two_pow_sub_one,
    Nat.zero_testBit]
  by_cases h1 : i < 32 - p <;> by_cases h2 : i < 32 <;>
    by_cases h3 : q + i < 32 <;> simp [h1, h2, h3] <;> omega

theorem bcast_and_mask {q p : Nat} (hqp : q ≤ p) (a : Nat) :
    v4bcast ⟨a &&& v4mask p, p⟩ &&& v4mask q = a &&& v4mask q := by
  show ((a &&& v4mask p) ||| (v4mask p ^^^ (2 ^ 32 - 1))) &&& v4mask q = _
  rw [Nat.and_distrib_right, hostmask_and_mask hqp, Nat.or_zero,
    mask_mask hqp]

theorem isPrivate4_of_range {a p : Nat} {r : Nat × Nat}
    (hr : r ∈ privateNets4) (hin : inNet4 r.1 r.2 a = true)
    (hqp : r.2 ≤ p) :
    isPrivate4 (a &&& v4mask p) (v4bcast ⟨a &&& v4mask p, p⟩) = true := by
  unfold isPrivate4
  rw [List.any_eq_true]
  refine ⟨r, hr, ?_⟩
  unfold inNet4 at hin ⊢
  rw [beq_iff_eq] at hin
  rw [Bool.and_eq_true, beq_iff_eq, beq_iff_eq]
  exact ⟨(mask_mask hqp a).trans hin, (bcast_and_mask hqp a).trans hin⟩

/-- C4 (amended): the classification booleans are those of the computed
network, requiring both the network address and the broadcast address
to lie in a table range.  Consequently an address inside a private range
yields is_private true whenever the given prefix is at least the range
prefix (for example 10.0.0.5/24), but not for every prefix length: the
counterexample 10.0.0.5/7 yields false although 10.0.0.5 lies inside
10.0.0.0/8.  The IPv6 fields are the analogous network-range tests. -/
theorem claimC4_classification (aS pS : String) (a p : Nat)
    (h1 : parseIPv4Addr aS = some a) (h2 : makeNetmask4 pS = some p) :
    List.lookup "is_private" (calculateIPv4 ⟨a &&& v4mask p, p⟩ ⟨a, p⟩) =
      some (.b (isPrivate4 (a &&& v4mask p) (v4bcast ⟨a &&& v4mask p, p⟩))) ∧
    List.lookup "is_global" (calculateIPv4 ⟨a &&& v4mask p, p⟩ ⟨a, p⟩) =
      some (.b (isGlobal4 (a &&& v4mask p) (v4bcast ⟨a &&& v4mask p, p⟩))) ∧
    (isPrivate4 (a &&& v4mask p) (v4bcast ⟨a &&& v4mask p, p⟩) = true ↔
      ∃ r ∈ privateNets4,
        inNet4 r.1 r.2 (a &&& v4mask p) = true ∧
        inNet4 r.1 r.2 (v4bcast ⟨a &&& v4mask p, p⟩) = true) ∧
    (∀ r ∈ privateNets4, inNet4 r.1 r.2 a = true → r.2 ≤ p →
      isPrivate4 (a &&& v4mask p) (v4bcast ⟨a &&& v4mask p, p⟩) = true) ∧
    (isGlobal4 (a &&& v4mask p) (v4bcast ⟨a &&& v4mask p, p⟩) = true ↔
      ¬(inNet4 0x64400000 10 (a &&& v4mask p) = true ∧
        inNet4 0x64400000 10 (v4bcast ⟨a &&& v4mask p, p⟩) = true) ∧
      ¬ isPrivate4 (a &&& v4mask p) (v4bcast ⟨a &&& v4mask p, p⟩) = true) ∧
    (∀ net info, calculateIPv6 net = some info →
      List.lookup "is_private" info =
        some (.b (isPrivate6 net.netAddr (v6bcast net))) ∧
      List.lookup "is_global" info =
        some (.b (!isPrivate6 net.netAddr (v6bcast net))) ∧
      List.lookup "is_link_local" info =
        some (.b (isLinkLocal6 net.netAddr (v6bcast net))) ∧
      List.lookup "is_multicast" info =
        some (.b (isMulticast6 net.netAddr (v6bcast net)))) := by
  refine ⟨rfl, rfl, ?_, ?_, ?_, ?_⟩
  · simp [isPrivate4, List.any_eq_true]
  · intro r hr hin hqp
    exact isPrivate4_of_range hr hin hqp
  · unfold isGlobal4
    cases hx : inNet4 0x64400000 10 (a &&& v4mask p) <;>
      cases hy : inNet4 0x64400000 10 (v4bcast ⟨a &&& v4mask p, p⟩) <;>
        cases hz : isPrivate4 (a &&& v4mask p) (v4bcast ⟨a &&& v4mask p, p⟩) <;>
          simp
  · intro net info h
    unfold calculateIPv6 at h
    rcases hr : revPtr6 net with _ | rv
    · rw [hr] at h
      simp at h
    · rw [hr] at h
      simp only [Option.some.injEq] at h
      subst h
      exact ⟨rfl, rfl, rfl, rfl⟩

/-- Witness for C4: 10.0.0.5/24 is private (range 10.0.0.0/8, prefix
24 at least 8). -/
theorem claimC4_classification_witness :
    List.lookup "is_private" (calculateIPv4 ⟨167772160, 24⟩ ⟨167772165, 24⟩) =
      some (.b true) := by
  have h := claimC4_classification "10.0.0.5" "24" 167772165 24
    (by decide) (by decide)
  have hs := h.2.2.2.1 (0x0A000000, 8) (by decide) (by decide) (by norm_num)
  have h1 := h.1
  rw [hs] at h1
  rw [show (167772165 &&& v4mask 24) = 167772160 from by decide] at h1
  exact h1

/-- C4 counterexample: 10.0.0.5 lies inside 10.0.0.0/8, yet with prefix
7 the computed network 10.0.0.0/7 reaches 11.255.255.255, so is_private
is false: the classification is not independent of the prefix length. -/
theorem claimC4_counterexample :
    getAddressVersion "10.0.0.5" = 4 ∧
    mkV4NetStr "10.0.0.5/7" = some ⟨167772160, 7⟩ ∧
    mkV4ItfStr "10.0.0.5/7" = some ⟨167772165, 7⟩ ∧
    inNet4 0x0A000000 8 167772165 = true ∧
    List.lookup "is_private" (calculateIPv4 ⟨167772160, 7⟩ ⟨167772165, 7⟩) =
      some (.b false) ∧
    ¬ List.lookup "is_private" (calculateIPv4 ⟨167772160, 7⟩ ⟨167772165, 7⟩) =
      some (.b true) := by decide

/-! ### C9: the rendered output format -/

/-- C9 (amended): every successful analysis prints a 42-equals banner,
the centered family title, a SECOND 42-equals banner, then one line per
field of the form label-left-justified-to-20, colon, space, value, in
exactly the coded field order, and a closing banner; the claimed shape
with a single banner before the field lines is not what the program
prints. -/
theorem claimC9_output_format (s : String) (code : Int) (r : List String)
    (h : processAddress s = (code, r)) (h0 : code = 0) :
    ∃ title info, r = printInfoLines title info ∧
      printInfoLines title info =
        bannerLine :: pyCenter 42 title :: bannerLine ::
          (info.map fmtFieldLine ++ [bannerLine]) ∧
      bannerLine.data = List.replicate 42 '=' ∧
      bannerLine.length = 42 ∧
      (∀ kv ∈ info, fmtFieldLine kv = pyLJust 20 kv.1 ++ ": " ++ kv.2.str) ∧
      ((title = "IPv4 Address Information" ∧
        info.map Prod.fst = ["ipaddress", "network_address",
          "broadcast_address", "host_count", "is_private", "is_global",
          "is_network_address", "is_broadcast_address", "reverse",
          "cidr_notation", "cisco_notation", "ubuntu_subnet"]) ∨
       (title = "IPv6 Address Information" ∧
        info.map Prod.fst = ["network_address", "is_private", "is_global",
          "is_link_local", "is_multicast", "reverse", "cidr_notation",
          "ubuntu_notation"])) := by
  subst h0
  unfold processAddress at h
  rcases hsp : pySplit '/' s with _ | ⟨a, _ | ⟨b, _ | ⟨c, t⟩⟩⟩ <;> rw [hsp] at h
  · exact absurd (congrArg Prod.fst h) (by simp)
  · exact absurd (congrArg Prod.fst h) (by simp)
  · dsimp only at h
    split_ifs at h with h1 h2 h3
    · exact absurd (congrArg Prod.fst h) (by simp)
    · rcases hnet : mkV4NetStr (a ++ "/" ++ b) with _ | net <;>
        rcases hitf : mkV4ItfStr (a ++ "/" ++ b) with _ | itf <;>
          rw [hnet, hitf] at h
      · exact absurd (congrArg Prod.fst h) (by simp)
      · exact absurd (congrArg Prod.fst h) (by simp)
      · exact absurd (congrArg Prod.fst h) (by simp)
      · dsimp only at h
        have hr : r = printInfoLines "IPv4 Address Information"
            (calculateIPv4 net itf) := (congrArg Prod.snd h).symm
        exact ⟨"IPv4 Address Information", calculateIPv4 net itf, hr,
          rfl, rfl, rfl, fun kv _ => rfl, Or.inl ⟨rfl, rfl⟩⟩
    · rcases hnet : mkV6NetStr (a ++ "/" ++ b) with _ | net <;>
        rw [hnet] at h <;> dsimp only at h
      · exact absurd (congrArg Prod.fst h) (by simp)
      · rcases hcal : calculateIPv6 net with _ | info <;>
          rw [hcal] at h <;> dsimp only at h
        · exact absurd (congrArg Prod.fst h) (by simp)
        · have hr : r = printInfoLines "IPv6 Address Information" info :=
            (congrArg Prod.snd h).symm
          refine ⟨"IPv6 Address Information", info, hr,
            rfl, rfl, rfl, fun kv _ => rfl, Or.inr ⟨rfl, ?_⟩⟩
          unfold calculateIPv6 at hcal
          rcases hrv : revPtr6 net with _ | rv
          · rw [hrv] at hcal
            simp at hcal
          · rw [hrv] at hcal
            simp only [Option.some.injEq] at hcal
            subst hcal
            rfl
    · exact absurd (congrArg Prod.fst h) (by simp)
  · exact absurd (congrArg Prod.fst h) (by simp)

/-- Witness for C9: the success output for 10.0.0.5/24 has the banner,
title, second banner and field-line shape. -/
theorem claimC9_output_format_witness :
    ∃ title info,
      (processAddress "10.0.0.5/24").2 = printInfoLines title info ∧
      printInfoLines title info =
        bannerLine :: pyCenter 42 title :: bannerLine ::
          (info.map fmtFieldLine ++ [bannerLine]) ∧
      bannerLine.data = List.replicate 42 '=' ∧
      bannerLine.length = 42 ∧
      (∀ kv ∈ info, fmtFieldLine kv = pyLJust 20 kv.1 ++ ": " ++ kv.2.str) ∧
      ((title = "IPv4 Address Information" ∧
        info.map Prod.fst = ["ipaddress", "network_address",
          "broadcast_address", "host_count", "is_private", "is_global",
          "is_network_address", "is_broadcast_address", "reverse",
          "cidr_notation", "cisco_notation", "ubuntu_subnet"]) ∨
       (title = "IPv6 Address Information" ∧
        info.map Prod.fst = ["network_address", "is_private", "is_global",
          "is_link_local", "is_multicast", "reverse", "cidr_notation",
          "ubuntu_notation"])) :=
  claimC9_output_format "10.0.0.5/24" (processAddress "10.0.0.5/24").1
    (processAddress "10.0.0.5/24").2 rfl (by decide)

/-- C9 counterexample: the claimed output shape has one banner before
the field lines (banner, title, 12 field lines, closing banner: 15
lines for IPv4), but print_ipv4_info prints a SECOND 42-equals banner
between the centered title and the field lines (ipfx.py lines 98 and
108), so for 10.0.0.5/24 the program prints 16 lines, line index 2 is
the banner and not the first field line, and the output differs from
the claimed shape. -/
theorem claimC9_counterexample :
    (processAddress "10.0.0.5/24").1 = 0 ∧
    (processAddress "10.0.0.5/24").2.length = 16 ∧
    List.get? (processAddress "10.0.0.5/24").2 2 = some bannerLine ∧
    ¬ (processAddress "10.0.0.5/24").2 =
      bannerLine :: pyCenter 42 "IPv4 Address Information" ::
        ((calculateIPv4 ⟨167772160, 24⟩ ⟨167772165, 24⟩).map fmtFieldLine
          ++ [bannerLine]) := by decide

end Ipfx